import Mathlib

/-!
# Verification of the printshop-scheduler core

Shallow embedding of the capacity-constrained reservation engine:

* the half-hour remaining-capacity SQL query (`remainingSql` /
  `remainingCapacityByHalfHour` in the availability module),
* the signed slot-offer protocol (`signSlot` / `verifySlotSignature`),
* the booking transactor (`bookSlot`, `bookCustomTimeRange`,
  `cancelBooking`) together with the storage-level GiST exclusion
  constraint `no_overlap_per_unit` (`EXCLUDE USING gist (unit_id WITH =,
  slot WITH &&)`, with no status restriction),
* the credit-ledger trigger `credit_balance_upkeep`,
* the usage-counter reconciliation of `POST /api/submit-usage-csv` and
  `BillingService.createUsageTransaction`,
* the booking-density sweep (`getBookingDensity`).

Timestamps are modelled as integers in milliseconds (the JavaScript
`Date.getTime()` representation).  The SQL side works in epoch seconds
(`floor(extract(epoch from ts) / 1800) * 1800`); since all dates that
reach the query carry whole milliseconds, flooring the epoch to a
multiple of 1800 seconds is exactly flooring the millisecond value to a
multiple of 1800000, which is how it is rendered here.  Database rows
are lists of records; a Postgres transaction that raises is modelled as
an operation returning `none` / `Except.error`, leaving the input state
untouched.  Row order produced by `ORDER BY` clauses is not modelled;
no property below depends on it.
-/

namespace Printshop

/-- Booking status: the `status` column of `bookings` takes the values
`'confirmed'` and `'cancelled'`. -/
inductive BookingStatus where
  | confirmed
  | cancelled
deriving DecidableEq, Repr

/-- A half-open time interval `[lo, hi)` in integer milliseconds; the
model of a Postgres `tstzrange` with `'[)'` bounds. -/
structure Range where
  lo : Int
  hi : Int
deriving DecidableEq, Repr

/-- Postgres `&&` on half-open ranges: the intersection is non-empty.
An empty range overlaps nothing, which this definition reproduces. -/
def rangesOverlap (a b : Range) : Bool :=
  max a.lo b.lo < min a.hi b.hi

/-- A row of the `units` table. -/
structure Unit where
  unitId : Int
  capacity : Int
  name : String
  active : Bool
deriving DecidableEq, Repr

/-- A row of the `blackouts` table. -/
structure Blackout where
  blackoutId : Int
  unitId : Int
  period : Range
  reason : String
deriving DecidableEq, Repr

/-- A row of the `bookings` table. -/
structure Booking where
  bookingId : Int
  userId : Int
  unitId : Int
  slot : Range
  status : BookingStatus
  createdAt : Int
deriving DecidableEq, Repr

/-- A row of the `users` table (only the column the booking code
touches). -/
structure User where
  userId : Int
  code : String
deriving DecidableEq, Repr

/-- A row of `credit_transactions` (serial id, currency, note and
booking/payment references omitted: no modelled operation reads them). -/
structure CreditTransaction where
  userId : Int
  amountCents : Int
  kind : String
deriving DecidableEq, Repr

/-- A row of `credit_balances`. -/
structure CreditBalance where
  userId : Int
  balanceCents : Int
deriving DecidableEq, Repr

/-- A row of `riso_last_seen_totals` (the `updated_at` metadata column
is omitted). -/
structure RisoLastSeen where
  userId : Int
  lastSeenCopies : Int
  lastSeenStencils : Int
  cumulativeCopiesBilled : Int
  cumulativeStencilsBilled : Int
  lastReportDate : Int
deriving DecidableEq, Repr

/-- A row of `risograph_usages` (serial id, timestamp and raw-data
columns omitted). -/
structure RisographUsage where
  userId : Int
  copiesPrinted : Int
  stencilsCreated : Int
deriving DecidableEq, Repr

/-- The persistent database state. -/
structure DBState where
  units : List Unit
  blackouts : List Blackout
  bookings : List Booking
  users : List User
  creditTransactions : List CreditTransaction
  creditBalances : List CreditBalance
  risoLastSeenTotals : List RisoLastSeen
  risographUsages : List RisographUsage
  nextBookingId : Int
deriving DecidableEq, Repr

/-! ## The half-hour capacity query (`remainingSql`) -/

/-- The bucket width: 30 minutes, in milliseconds. -/
def bucketMs : Int := 1800000

/-- `to_timestamp(floor(extract(epoch FROM win_start) / 1800) * 1800)`:
snap a timestamp down to the previous :00 / :30 boundary. -/
def alignedStart (winStart : Int) : Int :=
  bucketMs * Int.fdiv winStart bucketMs

/-- `n` steps of `generate_series` with a 30-minute step:
`[a, a + 30min, …]`. -/
def genSeriesAux : Int → Nat → List Int
  | _, 0 => []
  | a, n + 1 => a :: genSeriesAux (a + bucketMs) n

/-- `generate_series(a, stop, INTERVAL '30 minutes')`: all values
`a + k * 30min ≤ stop`; empty when `stop < a`. -/
def genSeries (a stop : Int) : List Int :=
  if a ≤ stop then genSeriesAux a ((stop - a).toNat / bucketMs.toNat + 1) else []

/-- A row of the query result (`bucket`, `unit_id`,
`remaining_capacity`). -/
structure BucketRemaining where
  bucket : Range
  unit_id : Int
  remaining_capacity : Int
deriving DecidableEq, Repr

/-- `booking_counts.overlap_count`: the number of confirmed bookings of
the unit whose slot overlaps the bucket. -/
def overlapCount (bks : List Booking) (uid : Int) (bucket : Range) : Nat :=
  (bks.filter fun bk =>
    bk.unitId == uid && rangesOverlap bk.slot bucket && bk.status == .confirmed).length

/-- The `LEFT JOIN blackouts … WHERE blackout_id IS NULL` anti-join: no
blackout of the unit overlaps the bucket. -/
def blackoutFree (bos : List Blackout) (uid : Int) (bucket : Range) : Bool :=
  bos.all fun bo => !(bo.unitId == uid && rangesOverlap bo.period bucket)

/-- The rows the query produces for one bucket: one per active,
blackout-free unit with `capacity - overlap_count > 0`. -/
def bucketRows (st : DBState) (bucket : Range) : List BucketRemaining :=
  st.units.filterMap fun u =>
    if u.active && blackoutFree st.blackouts u.unitId bucket then
      let remaining : Int := u.capacity - (overlapCount st.bookings u.unitId bucket : Int)
      if 0 < remaining then some ⟨bucket, u.unitId, remaining⟩ else none
    else none

/-- `remainingCapacityByHalfHour`: execute `remainingSql` on the state.
The `ORDER BY bucket, unit_id` is not modelled (no claim depends on row
order). -/
def remainingCapacityByHalfHour (st : DBState) (winStart winEnd : Int) :
    List BucketRemaining :=
  (genSeries (alignedStart winStart) (winEnd - bucketMs)).flatMap fun g =>
    bucketRows st ⟨g, g + bucketMs⟩

/-! ### Characterisation of the emitted buckets -/

theorem mem_genSeriesAux (g a : Int) (n : Nat) :
    g ∈ genSeriesAux a n ↔ ∃ k : Nat, k < n ∧ g = a + k * bucketMs := by
  induction n generalizing a with
  | zero => simp [genSeriesAux]
  | succ n ih =>
    simp only [genSeriesAux, List.mem_cons, ih]
    constructor
    · rintro (rfl | ⟨k, hk, rfl⟩)
      · exact ⟨0, by omega, by ring⟩
      · exact ⟨k + 1, by omega, by push_cast; ring⟩
    · rintro ⟨k, hk, rfl⟩
      cases k with
      | zero => left; ring
      | succ k => right; exact ⟨k, by omega, by push_cast; ring⟩

/-- Membership in the emitted series: exactly the grid points
`a + k * 30min` with `a ≤ g ≤ stop`. -/
theorem mem_genSeries (g a stop : Int) :
    g ∈ genSeries a stop ↔ a ≤ g ∧ g ≤ stop ∧ bucketMs ∣ g - a := by
  have hb : bucketMs = 1800000 := rfl
  have hbn : Int.toNat 1800000 = 1800000 := rfl
  unfold genSeries
  split
  · next h =>
    rw [mem_genSeriesAux]
    simp only [hb, hbn]
    constructor
    · rintro ⟨k, hk, rfl⟩
      refine ⟨by omega, ?_, ⟨k, by ring⟩⟩
      omega
    · rintro ⟨h1, h2, c, hc⟩
      exact ⟨c.toNat, by omega, by omega⟩
  · next h =>
    simp only [List.not_mem_nil, false_iff, hb]
    omega

/-- Which rows one bucket contributes. -/
theorem mem_bucketRows (st : DBState) (b : Range) (r : BucketRemaining) :
    r ∈ bucketRows st b ↔
      ∃ u ∈ st.units, u.active = true ∧
        blackoutFree st.blackouts u.unitId b = true ∧
        0 < u.capacity - (overlapCount st.bookings u.unitId b : Int) ∧
        r = ⟨b, u.unitId, u.capacity - (overlapCount st.bookings u.unitId b : Int)⟩ := by
  simp only [bucketRows, List.mem_filterMap]
  constructor
  · rintro ⟨u, hu, hf⟩
    split at hf
    · next hcond =>
      split at hf
      · next hpos =>
        simp only [Option.some.injEq] at hf
        simp only [Bool.and_eq_true] at hcond
        exact ⟨u, hu, hcond.1, hcond.2, hpos, hf.symm⟩
      · exact absurd hf (by simp)
    · exact absurd hf (by simp)
  · rintro ⟨u, hu, hact, hbo, hpos, rfl⟩
    refine ⟨u, hu, ?_⟩
    simp [hact, hbo, hpos]

/-- Membership in the full query result. -/
theorem mem_remainingCapacity (st : DBState) (ws we : Int) (r : BucketRemaining) :
    r ∈ remainingCapacityByHalfHour st ws we ↔
      ∃ g, alignedStart ws ≤ g ∧ g + bucketMs ≤ we ∧
        bucketMs ∣ g - alignedStart ws ∧
        r ∈ bucketRows st ⟨g, g + bucketMs⟩ := by
  simp only [remainingCapacityByHalfHour, List.mem_flatMap, mem_genSeries]
  constructor
  · rintro ⟨g, ⟨h1, h2, h3⟩, h4⟩
    exact ⟨g, h1, by omega, h3, h4⟩
  · rintro ⟨g, h1, h2, h3, h4⟩
    exact ⟨g, ⟨h1, by omega, h3⟩, h4⟩

/-- The window start snaps down to the grid. -/
theorem alignedStart_le (ws : Int) :
    alignedStart ws ≤ ws ∧ ws < alignedStart ws + bucketMs ∧
      bucketMs ∣ alignedStart ws := by
  have h1 := Int.fdiv_add_fmod ws 1800000
  have h2 : 0 ≤ ws.fmod 1800000 := Int.fmod_nonneg' ws (by norm_num)
  have h3 := Int.fmod_lt_of_pos ws (by norm_num : (0:Int) < 1800000)
  have hb : bucketMs = 1800000 := rfl
  refine ⟨?_, ?_, ⟨Int.fdiv ws bucketMs, rfl⟩⟩ <;>
    simp only [alignedStart, hb] <;> omega

/-- C1 (amended): for every window `[start, end)` with `start < end`,
the query snaps the window start down to the nearest 30-minute boundary,
and a row with bucket start `g` is produced exactly when `[g, g+30min)`
is a grid bucket that lies *entirely inside* `[alignedStart, end]`
(i.e. `g + 30min ≤ end`) and some active, blackout-free unit has
positive remaining capacity on it.  In particular a final bucket that
only partially overlaps the window (possible when the window end is not
bucket-aligned) is *not* emitted; the leading partial bucket created by
the snap *is*. -/
theorem claim_C1_amended (st : DBState) (ws we g : Int) (h : ws < we) :
    (alignedStart ws ≤ ws ∧ ws < alignedStart ws + bucketMs ∧
      bucketMs ∣ alignedStart ws) ∧
    ((∃ r ∈ remainingCapacityByHalfHour st ws we, r.bucket.lo = g) ↔
      (alignedStart ws ≤ g ∧ g + bucketMs ≤ we ∧
        bucketMs ∣ g - alignedStart ws ∧
        ∃ u ∈ st.units, u.active = true ∧
          blackoutFree st.blackouts u.unitId ⟨g, g + bucketMs⟩ = true ∧
          0 < u.capacity - (overlapCount st.bookings u.unitId ⟨g, g + bucketMs⟩ : Int))) := by
  refine ⟨alignedStart_le ws, ?_⟩
  constructor
  · rintro ⟨r, hr, hlo⟩
    rw [mem_remainingCapacity] at hr
    obtain ⟨g', h1, h2, h3, h4⟩ := hr
    rw [mem_bucketRows] at h4
    obtain ⟨u, hu, hact, hbo, hpos, rfl⟩ := h4
    simp only at hlo
    subst hlo
    exact ⟨h1, h2, h3, u, hu, hact, hbo, hpos⟩
  · rintro ⟨h1, h2, h3, u, hu, hact, hbo, hpos⟩
    refine ⟨⟨⟨g, g + bucketMs⟩, u.unitId,
      u.capacity - (overlapCount st.bookings u.unitId ⟨g, g + bucketMs⟩ : Int)⟩, ?_, rfl⟩
    rw [mem_remainingCapacity]
    exact ⟨g, h1, h2, h3, (mem_bucketRows st _ _).mpr ⟨u, hu, hact, hbo, hpos, rfl⟩⟩

/-- A single active unit of capacity 1, no bookings, no blackouts. -/
def oneUnitState : DBState :=
  { units := [⟨1, 1, "", true⟩], blackouts := [], bookings := [], users := [],
    creditTransactions := [], creditBalances := [], risoLastSeenTotals := [],
    risographUsages := [], nextBookingId := 1 }

/-- C1 (counterexample): for the window `[0, 2700000)` (epoch-ms 0:00 to
0:45) the grid bucket `[1800000, 3600000)` (0:30–1:00) intersects the
window, the sole unit is active, blackout-free and has positive
remaining capacity on it, yet the query emits no row for that bucket:
the claimed final partially-overlapping bucket is missing. -/
theorem claim_C1_counterexample :
    ((0:Int) < 2700000) ∧
    rangesOverlap ⟨1800000, 3600000⟩ ⟨0, 2700000⟩ = true ∧
    alignedStart 0 = 0 ∧ (bucketMs ∣ (1800000:Int)) ∧
    (∃ u ∈ oneUnitState.units, u.active = true ∧
      blackoutFree oneUnitState.blackouts u.unitId ⟨1800000, 3600000⟩ = true ∧
      0 < u.capacity -
        (overlapCount oneUnitState.bookings u.unitId ⟨1800000, 3600000⟩ : Int)) ∧
    (∀ r ∈ remainingCapacityByHalfHour oneUnitState 0 2700000,
      r.bucket.lo ≠ 1800000) := by
  refine ⟨by norm_num, by decide, by decide, ⟨1, by decide⟩, ⟨⟨1, 1, "", true⟩, by decide⟩, ?_⟩
  decide

/-- C2 (confirmed): every row of the capacity query has positive
remaining capacity equal to the unit's capacity minus the number of
confirmed bookings of that unit overlapping the bucket; rows come only
from active units with no blackout overlapping the bucket, so the
confirmed-overlap count plus the remaining capacity equals (hence never
exceeds) the unit's capacity. -/
theorem claim_C2 (st : DBState) (ws we : Int) (r : BucketRemaining)
    (hr : r ∈ remainingCapacityByHalfHour st ws we) :
    0 < r.remaining_capacity ∧
    ∃ u ∈ st.units, u.unitId = r.unit_id ∧ u.active = true ∧
      blackoutFree st.blackouts u.unitId r.bucket = true ∧
      r.remaining_capacity =
        u.capacity - (overlapCount st.bookings u.unitId r.bucket : Int) ∧
      (overlapCount st.bookings u.unitId r.bucket : Int) + r.remaining_capacity =
        u.capacity := by
  rw [mem_remainingCapacity] at hr
  obtain ⟨g, -, -, -, h4⟩ := hr
  rw [mem_bucketRows] at h4
  obtain ⟨u, hu, hact, hbo, hpos, rfl⟩ := h4
  exact ⟨hpos, u, hu, rfl, hact, hbo, rfl, by ring⟩

/-- Witness for C1 (amended) at a concrete input: window `[0, 3600000)`
on `oneUnitState`, bucket start `g = 0`. -/
theorem claim_C1_amended_witness :
    (alignedStart 0 ≤ 0 ∧ (0:Int) < alignedStart 0 + bucketMs ∧
      bucketMs ∣ alignedStart 0) ∧
    ((∃ r ∈ remainingCapacityByHalfHour oneUnitState 0 3600000, r.bucket.lo = 0) ↔
      (alignedStart 0 ≤ 0 ∧ (0:Int) + bucketMs ≤ 3600000 ∧
        bucketMs ∣ (0:Int) - alignedStart 0 ∧
        ∃ u ∈ oneUnitState.units, u.active = true ∧
          blackoutFree oneUnitState.blackouts u.unitId ⟨0, 0 + bucketMs⟩ = true ∧
          0 < u.capacity -
            (overlapCount oneUnitState.bookings u.unitId ⟨0, 0 + bucketMs⟩ : Int))) :=
  claim_C1_amended oneUnitState 0 3600000 0 (by norm_num)

/-- Witness for C2 at a concrete row of the query on `oneUnitState`. -/
theorem claim_C2_witness :
    0 < (⟨⟨0, 1800000⟩, 1, 1⟩ : BucketRemaining).remaining_capacity ∧
    ∃ u ∈ oneUnitState.units,
      u.unitId = (⟨⟨0, 1800000⟩, 1, 1⟩ : BucketRemaining).unit_id ∧ u.active = true ∧
      blackoutFree oneUnitState.blackouts u.unitId
        (⟨⟨0, 1800000⟩, 1, 1⟩ : BucketRemaining).bucket = true ∧
      (⟨⟨0, 1800000⟩, 1, 1⟩ : BucketRemaining).remaining_capacity =
        u.capacity - (overlapCount oneUnitState.bookings u.unitId
          (⟨⟨0, 1800000⟩, 1, 1⟩ : BucketRemaining).bucket : Int) ∧
      (overlapCount oneUnitState.bookings u.unitId
          (⟨⟨0, 1800000⟩, 1, 1⟩ : BucketRemaining).bucket : Int) +
        (⟨⟨0, 1800000⟩, 1, 1⟩ : BucketRemaining).remaining_capacity = u.capacity :=
  claim_C2 oneUnitState 0 1800000 ⟨⟨0, 1800000⟩, 1, 1⟩ (by decide)

/-! ## The signed slot-offer protocol

`signSlot` issues a JWT over `{type: 'slot_availability', slot:
{start, end} (ISO strings), unitId, price, timestamp: Date.now(),
exp: floor(Date.now()/1000) + 15*60}` under the server secret
(`config.jwt.secret`).  A MAC is modelled symbolically: a token is a
term recording the payload the signer bound and the key it was signed
with, and `jwt.verify` succeeds exactly on tokens signed with the same
key (unforgeability) that are unexpired — the `jsonwebtoken` library
rejects a token whose `exp` (seconds) is `≤ floor(now/1000)`.  ISO-8601
rendering of a millisecond timestamp is injective, so the byte-for-byte
string comparisons of `verifySlotSignature` are equality of the
millisecond values. -/

/-- A token signed by this server.  `slotAvailability` is the shape
produced by `signSlot` (its `exp` is determined by the issue time);
`session` stands for the other token type the server signs (the login
token of `tokenService`), which carries a different `type` tag. -/
inductive Token where
  | slotAvailability (slotStart slotEnd unitId price issuedAt : Int) (key : String)
  | session (payload : String) (exp : Int) (key : String)
deriving DecidableEq, Repr

/-- The `exp` claim of a token, in epoch seconds. -/
def Token.exp : Token → Int
  | .slotAvailability _ _ _ _ issuedAt _ => Int.fdiv issuedAt 1000 + 15 * 60
  | .session _ e _ => e

/-- The key a token was signed with. -/
def Token.key : Token → String
  | .slotAvailability _ _ _ _ _ k => k
  | .session _ _ k => k

/-- `jwt.verify(token, secret)`: succeeds iff the signature matches the
secret and the token is unexpired (`floor(now/1000) < exp`); on failure
the caller's `catch` sees an exception, modelled by `none`. -/
def jwtVerify (tok : Token) (secret : String) (nowMs : Int) : Option Token :=
  if tok.key == secret && decide (Int.fdiv nowMs 1000 < tok.exp) then some tok else none

/-- The client-facing slot object (`AvailableSlot`). -/
structure AvailableSlot where
  slot : Range
  unitId : Int
  price : Int
  signature : Token
deriving DecidableEq, Repr

/-- `AvailabilityManager.signSlot`: sign slot, unit and price with a
15-minute expiry. -/
def signSlot (slot : Range) (unitId price : Int) (nowMs : Int) (key : String) : Token :=
  .slotAvailability slot.lo slot.hi unitId price nowMs key

/-- `AvailabilityManager.verifySlotSignature`: decode the signature and
compare the type tag, both interval endpoints, unitId, price, and check
`decoded.exp > floor(now/1000)`. -/
def verifySlotSignature (secret : String) (nowMs : Int) (s : AvailableSlot) : Bool :=
  match jwtVerify s.signature secret nowMs with
  | none => false
  | some tok =>
    match tok with
    | .slotAvailability slotStart slotEnd unitId price _ _ =>
      slotStart == s.slot.lo && slotEnd == s.slot.hi &&
        unitId == s.unitId && price == s.price &&
        decide (Int.fdiv nowMs 1000 < tok.exp)
    | .session _ _ _ => false

/-- Reduction of `verifySlotSignature` on a slot-availability token. -/
lemma verifySlot_reduce (secret : String) (nowMs : Int) (slot : Range)
    (uid price a b c d t : Int) (k : String) :
    verifySlotSignature secret nowMs ⟨slot, uid, price, .slotAvailability a b c d t k⟩ =
      ((k == secret) && decide (Int.fdiv nowMs 1000 < Int.fdiv t 1000 + 15 * 60) &&
       (a == slot.lo && b == slot.hi && c == uid && d == price)) := by
  by_cases hc : ((k == secret) && decide (Int.fdiv nowMs 1000 < Int.fdiv t 1000 + 15 * 60)) = true
  · have hj : jwtVerify (.slotAvailability a b c d t k) secret nowMs
        = some (.slotAvailability a b c d t k) := by
      rw [jwtVerify]
      simp only [Token.key, Token.exp]
      rw [if_pos hc]
    rw [Bool.and_eq_true] at hc
    obtain ⟨h1, h2⟩ := hc
    simp only [verifySlotSignature, hj, Token.exp, h1, h2, Bool.true_and, Bool.and_true]
  · have hc2 : ((k == secret) &&
        decide (Int.fdiv nowMs 1000 < Int.fdiv t 1000 + 15 * 60)) = false :=
      Bool.eq_false_iff.mpr hc
    have hj : jwtVerify (.slotAvailability a b c d t k) secret nowMs = none := by
      rw [jwtVerify]
      simp only [Token.key, Token.exp]
      rw [if_neg hc]
    simp only [verifySlotSignature, hj, hc2, Bool.false_and]

/-- A session token never passes slot verification (wrong type tag). -/
lemma verifySlot_session (secret : String) (nowMs : Int) (slot : Range)
    (uid price : Int) (p : String) (e : Int) (k : String) :
    verifySlotSignature secret nowMs ⟨slot, uid, price, .session p e k⟩ = false := by
  by_cases hc : ((Token.session p e k).key == secret &&
      decide (Int.fdiv nowMs 1000 < (Token.session p e k).exp)) = true
  · have hj : jwtVerify (.session p e k) secret nowMs = some (.session p e k) := by
      rw [jwtVerify, if_pos hc]
    simp only [verifySlotSignature, hj]
  · have hj : jwtVerify (.session p e k) secret nowMs = none := by
      rw [jwtVerify, if_neg]
      exact fun h => hc h
    simp only [verifySlotSignature, hj]

/-- Acceptance characterised: a presented slot verifies iff its
signature is `signSlot` of exactly the presented interval, unitId and
price under the server secret, at some issue time strictly less than 15
minutes (in whole seconds) before the check. -/
theorem verifySlotSignature_iff (secret : String) (nowMs : Int) (s : AvailableSlot) :
    verifySlotSignature secret nowMs s = true ↔
      ∃ t : Int, s.signature = signSlot s.slot s.unitId s.price t secret ∧
        Int.fdiv nowMs 1000 < Int.fdiv t 1000 + 15 * 60 := by
  obtain ⟨slot, uid, price, sig⟩ := s
  cases sig with
  | slotAvailability a b c d t k =>
    rw [verifySlot_reduce]
    simp only [signSlot, Bool.and_eq_true, beq_iff_eq, decide_eq_true_eq,
      Token.slotAvailability.injEq]
    constructor
    · rintro ⟨⟨rfl, h2⟩, ⟨⟨ha, hb⟩, hc⟩, hd⟩
      exact ⟨t, ⟨ha, hb, hc, hd, rfl, rfl⟩, h2⟩
    · rintro ⟨t2, ⟨ha, hb, hc, hd, rfl, rfl⟩, h2⟩
      exact ⟨⟨rfl, h2⟩, ⟨⟨ha, hb⟩, hc⟩, hd⟩
  | session p e k =>
    rw [verifySlot_session]
    constructor
    · intro h
      exact absurd h (by simp)
    · rintro ⟨t2, h, -⟩
      simp [signSlot] at h

/-- C3 (counterexample): the claim accepts at `current time = expiry`
("current time ≤ the expiry of 15 minutes after issuance"), but the
code's check is strict.  A token issued at time 0 binding exactly the
presented fields is rejected when presented at 900000 ms, although
900000 ms is exactly 15 minutes after issuance. -/
theorem claim_C3_counterexample :
    verifySlotSignature "k" 900000
        ⟨⟨0, 1800000⟩, 1, 0, signSlot ⟨0, 1800000⟩ 1 0 0 "k"⟩ = false ∧
      (900000 : Int) ≤ 0 + 15 * 60 * 1000 := by
  constructor
  · decide
  · norm_num

/-- C3 (amended): `verifySlotSignature` accepts a presented slot iff the
signature was produced by `signSlot` under the server secret binding the
`slot_availability` tag and exactly the presented interval start, end,
unitId and price, and the current time is *strictly* before the expiry
of 15 minutes after issuance (in whole seconds:
`floor(now/1000) < floor(issuedAt/1000) + 900`); altering any bound
field, or presenting at or after the expiry instant, is rejected
outright. -/
theorem claim_C3_amended (secret : String) (nowMs : Int) (s : AvailableSlot) :
    verifySlotSignature secret nowMs s = true ↔
      ∃ t : Int, s.signature = signSlot s.slot s.unitId s.price t secret ∧
        Int.fdiv nowMs 1000 < Int.fdiv t 1000 + 15 * 60 :=
  verifySlotSignature_iff secret nowMs s

/-! ## The booking transactor

`bookSlot` and `bookCustomTimeRange` run inside one database
transaction; a thrown error aborts the transaction, so each is a
function from the old state to either an error or the new state.  The
insert into `bookings` is subject to the storage constraint
`no_overlap_per_unit EXCLUDE USING gist (unit_id WITH =, slot WITH &&)`
— it covers rows of *every* status.  A violation surfaces to the route
handler as the underlying database error (`exclusionViolation` below),
distinct from the application-level `'Slot no longer available'`
message.  The fire-and-forget WebSocket broadcast mutates no database
state and is not modelled. -/

/-- The distinguishable failure modes of the booking code paths. -/
inductive BookErr where
  /-- `'Invalid or expired slot signature'` -/
  | invalidSignature
  /-- `'Unit not found or inactive'` -/
  | unitNotFound
  /-- `'Slot no longer available'` -/
  | slotNoLongerAvailable
  /-- the raw `no_overlap_per_unit` exclusion-constraint violation -/
  | exclusionViolation
deriving DecidableEq, Repr

/-- `tx.query.units.findFirst({where: unitId = … AND active})`. -/
def findUnit (st : DBState) (unitId : Int) : Option Unit :=
  st.units.find? fun u => u.unitId == unitId && u.active

/-- `INSERT INTO bookings … status 'confirmed'`, checked against the
`no_overlap_per_unit` exclusion constraint (over rows of any status). -/
def insertBooking (st : DBState) (userId unitId : Int) (slot : Range) (nowMs : Int) :
    Except BookErr DBState :=
  if st.bookings.any fun b => b.unitId == unitId && rangesOverlap b.slot slot then
    .error .exclusionViolation
  else
    .ok { st with
      bookings := st.bookings ++
        [⟨st.nextBookingId, userId, unitId, slot, .confirmed, nowMs⟩],
      nextBookingId := st.nextBookingId + 1 }

/-- `AvailabilityManager.bookSlot`: verify the signature, look up the
active unit, re-derive remaining capacity for the slot's window, find
the bucket row for this unit and slot start, reject when missing or
non-positive, then insert the confirmed booking. -/
def bookSlot (st : DBState) (secret : String) (nowMs : Int) (userId : Int)
    (s : AvailableSlot) : Except BookErr DBState :=
  if !verifySlotSignature secret nowMs s then .error .invalidSignature
  else
    match findUnit st s.unitId with
    | none => .error .unitNotFound
    | some _ =>
      let capacityCheck := remainingCapacityByHalfHour st s.slot.lo s.slot.hi
      match capacityCheck.find? fun c => c.unit_id == s.unitId && c.bucket.lo == s.slot.lo with
      | none => .error .slotNoLongerAvailable
      | some availableForUnit =>
        if availableForUnit.remaining_capacity ≤ 0 then .error .slotNoLongerAvailable
        else insertBooking st userId s.unitId s.slot nowMs

/-- `AvailabilityManager.bookCustomTimeRange`: no signature and no
application-level capacity check; only the active-unit lookup and the
storage exclusion constraint. -/
def bookCustomTimeRange (st : DBState) (nowMs userId : Int) (slot : Range)
    (unitId : Int) : Except BookErr DBState :=
  match findUnit st unitId with
  | none => .error .unitNotFound
  | some _ => insertBooking st userId unitId slot nowMs

/-- `AvailabilityManager.cancelBooking`: find the caller's confirmed
booking, then `UPDATE bookings SET status = 'cancelled' WHERE
booking_id = …`; the returned flag is `rowCount > 0`. -/
def cancelBooking (st : DBState) (bookingId userId : Int) : Bool × DBState :=
  match st.bookings.find? fun b =>
      b.bookingId == bookingId && b.userId == userId && b.status == .confirmed with
  | none => (false, st)
  | some _ =>
    let rowCount := (st.bookings.filter fun b => b.bookingId == bookingId).length
    (decide (0 < rowCount),
      { st with bookings := st.bookings.map fun b =>
          if b.bookingId == bookingId then { b with status := .cancelled } else b })

/-! ## The credit ledger

The `credit_balance_upkeep` trigger runs after each insert into
`credit_transactions`: it upserts the user's `credit_balances` row by
adding the signed amount, then raises (aborting the whole transaction,
insert included) when the resulting balance is negative.  The aborted
transaction is modelled by `none`. -/

/-- The trigger's `INSERT … ON CONFLICT (user_id) DO UPDATE`. -/
def upsertBalance (rows : List CreditBalance) (userId amount : Int) :
    List CreditBalance :=
  if rows.any fun r => r.userId == userId then
    rows.map fun r =>
      if r.userId == userId then { r with balanceCents := r.balanceCents + amount } else r
  else rows ++ [⟨userId, amount⟩]

/-- The cached balance of a user (0 when the row does not exist yet). -/
def lookupBalance (rows : List CreditBalance) (userId : Int) : Int :=
  match rows.find? fun r => r.userId == userId with
  | none => 0
  | some r => r.balanceCents

/-- Insert a credit transaction with the `credit_balance_upkeep`
trigger: upsert the balance, then fail the whole transaction if the
user's balance became negative. -/
def insertCreditTransaction (st : DBState) (t : CreditTransaction) : Option DBState :=
  let balances := upsertBalance st.creditBalances t.userId t.amountCents
  match balances.find? fun r => r.userId == t.userId with
  | none => none
  | some r =>
    if r.balanceCents < 0 then none
    else some { st with
      creditTransactions := st.creditTransactions ++ [t],
      creditBalances := balances }

/-- The sum of a user's transaction amounts. -/
def userTxSum (txs : List CreditTransaction) (userId : Int) : Int :=
  ((txs.filter fun t => t.userId == userId).map fun t => t.amountCents).sum

lemma lookupBalance_cons (r : CreditBalance) (rs : List CreditBalance) (uid : Int) :
    lookupBalance (r :: rs) uid =
      if r.userId = uid then r.balanceCents else lookupBalance rs uid := by
  unfold lookupBalance
  rw [List.find?_cons]
  by_cases h : r.userId = uid
  · simp [h]
  · have h2 : (r.userId == uid) = false := by simp [h]
    simp [h2, h]

lemma find_map_update (rows : List CreditBalance) (uid amt : Int)
    (hany : (rows.any fun r => r.userId == uid) = true) :
    ((rows.map fun r =>
        if r.userId == uid then { r with balanceCents := r.balanceCents + amt } else r).find?
      fun r => r.userId == uid) = some ⟨uid, lookupBalance rows uid + amt⟩ := by
  induction rows with
  | nil => simp at hany
  | cons r rs ih =>
    by_cases hr : r.userId = uid
    · subst hr
      simp [List.find?_cons, lookupBalance_cons]
    · have hany2 : (rs.any fun r => r.userId == uid) = true := by
        simpa [List.any_cons, hr] using hany
      rw [List.map_cons, if_neg (by simp [hr])]
      rw [List.find?_cons_of_neg _ (by simp [hr])]
      rw [ih hany2, lookupBalance_cons, if_neg hr]

lemma find_append_single (rows : List CreditBalance) (uid amt : Int)
    (hnone : (rows.find? fun r => r.userId == uid) = none) :
    ((rows ++ [(⟨uid, amt⟩ : CreditBalance)]).find? fun r => r.userId == uid)
      = some ⟨uid, amt⟩ := by
  rw [List.find?_append, hnone]
  simp

lemma any_false_find_none (rows : List CreditBalance) (uid : Int)
    (hany : (rows.any fun r => r.userId == uid) = false) :
    (rows.find? fun r => r.userId == uid) = none := by
  rw [List.find?_eq_none]
  intro x hx hpx
  have h2 : (rows.any fun r => r.userId == uid) = true :=
    List.any_eq_true.mpr ⟨x, hx, hpx⟩
  rw [h2] at hany
  exact absurd hany (by simp)

lemma lookup_of_find_none (rows : List CreditBalance) (uid : Int)
    (hnone : (rows.find? fun r => r.userId == uid) = none) :
    lookupBalance rows uid = 0 := by
  simp [lookupBalance, hnone]

/-- After the trigger's upsert the user's row exists and carries the
old balance plus the amount. -/
lemma find_upsert (rows : List CreditBalance) (uid amt : Int) :
    ((upsertBalance rows uid amt).find? fun r => r.userId == uid)
      = some ⟨uid, lookupBalance rows uid + amt⟩ := by
  unfold upsertBalance
  split
  · next hany => exact find_map_update rows uid amt hany
  · next hany =>
    have hnone := any_false_find_none rows uid (Bool.eq_false_iff.mpr hany)
    rw [find_append_single rows uid amt hnone, lookup_of_find_none rows uid hnone]
    norm_num

lemma lookup_upsert_self (rows : List CreditBalance) (uid amt : Int) :
    lookupBalance (upsertBalance rows uid amt) uid = lookupBalance rows uid + amt := by
  unfold lookupBalance
  rw [find_upsert]
  rfl

lemma lookup_upsert_other (rows : List CreditBalance) (uid amt uid2 : Int)
    (h : uid2 ≠ uid) :
    lookupBalance (upsertBalance rows uid amt) uid2 = lookupBalance rows uid2 := by
  unfold upsertBalance
  split
  · next hany =>
    clear hany
    induction rows with
    | nil => rfl
    | cons r rs ih =>
      by_cases hq : r.userId = uid
      · rw [List.map_cons, if_pos (by simp [hq])]
        rw [lookupBalance_cons, lookupBalance_cons]
        have hne : ¬ r.userId = uid2 := by rw [hq]; exact fun hh => h hh.symm
        simp only [hne, if_false, ih]
      · rw [List.map_cons, if_neg (by simp [hq])]
        rw [lookupBalance_cons, lookupBalance_cons]
        by_cases hm : r.userId = uid2
        · simp [hm]
        · simp only [hm, if_false, ih]
  · next hany =>
    unfold lookupBalance
    rw [List.find?_append]
    have hone : ([(⟨uid, amt⟩ : CreditBalance)].find? fun r => r.userId == uid2) = none := by
      simp [show ¬(uid = uid2) from fun hh => h hh.symm]
    cases hf : rows.find? fun r => r.userId == uid2 <;> simp [hone, hf]

lemma userTxSum_append (txs : List CreditTransaction) (t : CreditTransaction) (uid : Int) :
    userTxSum (txs ++ [t]) uid =
      userTxSum txs uid + (if t.userId = uid then t.amountCents else 0) := by
  unfold userTxSum
  rw [List.filter_append]
  by_cases h : t.userId = uid
  · simp [h]
  · simp [h]

/-- C5 (confirmed): appending a credit transaction fails — with the
transaction insert and the balance update rolled back, which `none`
models — exactly when the user's prior cached balance plus the signed
amount is negative; otherwise it succeeds, appends the transaction, and
afterwards every user's cached balance still equals the sum of that
user's accepted transaction amounts. -/
theorem claim_C5 (st : DBState) (t : CreditTransaction)
    (hinv : ∀ uid, lookupBalance st.creditBalances uid = userTxSum st.creditTransactions uid) :
    (lookupBalance st.creditBalances t.userId + t.amountCents < 0 →
      insertCreditTransaction st t = none) ∧
    (0 ≤ lookupBalance st.creditBalances t.userId + t.amountCents →
      ∃ st2, insertCreditTransaction st t = some st2 ∧
        st2.creditTransactions = st.creditTransactions ++ [t] ∧
        ∀ uid, lookupBalance st2.creditBalances uid = userTxSum st2.creditTransactions uid) := by
  simp only [insertCreditTransaction, find_upsert]
  constructor
  · intro hneg
    simp only [if_pos hneg]
  · intro hpos
    rw [if_neg (by omega)]
    refine ⟨_, rfl, rfl, ?_⟩
    intro uid
    by_cases h : uid = t.userId
    · subst h
      rw [lookup_upsert_self, userTxSum_append, hinv t.userId, if_pos rfl]
    · rw [lookup_upsert_other _ _ _ _ h, userTxSum_append, hinv uid,
        if_neg (fun hh => h hh.symm)]
      ring

/-- Witness for C5: a 100-cent purchase for user 1 on the empty ledger
is accepted and preserves the balance invariant. -/
theorem claim_C5_witness :
    ∃ st2, insertCreditTransaction oneUnitState ⟨1, 100, "purchase"⟩ = some st2 ∧
      st2.creditTransactions = oneUnitState.creditTransactions ++ [⟨1, 100, "purchase"⟩] ∧
      ∀ uid, lookupBalance st2.creditBalances uid = userTxSum st2.creditTransactions uid :=
  (claim_C5 oneUnitState ⟨1, 100, "purchase"⟩ (fun _ => rfl)).2 (by decide)

/-! ## Usage reconciliation (`POST /api/submit-usage-csv`)

Per user the route reads the stored `riso_last_seen_totals` row
(defaulting every counter to 0), detects a reset when *either* reported
counter is below its last-seen value, computes the amounts to bill, and
— when something is billed — inserts a `risograph_usages` row and a
negative `usage_charge` credit transaction
(`BillingService.createUsageTransaction`); it then overwrites the
stored totals.  A thrown error (e.g. the credit trigger rejecting the
debit) aborts that user's processing before the totals update. -/

/-- The outcome of the per-user reconciliation arithmetic. -/
structure UsageBill where
  copiesToBill : Int
  stencilsToBill : Int
  resetDetected : Bool
  newTotals : RisoLastSeen
deriving DecidableEq, Repr

/-- The pure reconciliation arithmetic of the route (index lines
1359–1441): defaults, the reset check
`totalCopies < lastSeenCopies || masterCount < lastSeenStencils`, the
billed amounts, and the new stored totals. -/
def reconcileUsage (userId : Int) (lastSeen : Option RisoLastSeen)
    (totalCopies masterCount reportDate : Int) : UsageBill :=
  let lastSeenCopies := match lastSeen with | none => 0 | some r => r.lastSeenCopies
  let lastSeenStencils := match lastSeen with | none => 0 | some r => r.lastSeenStencils
  let cumulativeCopiesBilled :=
    match lastSeen with | none => 0 | some r => r.cumulativeCopiesBilled
  let cumulativeStencilsBilled :=
    match lastSeen with | none => 0 | some r => r.cumulativeStencilsBilled
  let reset := totalCopies < lastSeenCopies ∨ masterCount < lastSeenStencils
  let copiesToBill :=
    if reset then max 0 (lastSeenCopies - cumulativeCopiesBilled) + totalCopies
    else totalCopies - lastSeenCopies
  let stencilsToBill :=
    if reset then max 0 (lastSeenStencils - cumulativeStencilsBilled) + masterCount
    else masterCount - lastSeenStencils
  ⟨copiesToBill, stencilsToBill, decide reset,
    ⟨userId, totalCopies, masterCount,
      cumulativeCopiesBilled + copiesToBill,
      cumulativeStencilsBilled + stencilsToBill, reportDate⟩⟩

/-- `BillingService.calculateUsageCharges` (total only). -/
def calculateUsageCharges (copyPriceCents stencilPriceCents copiesPrinted
    stencilsCreated : Int) : Int :=
  copiesPrinted * copyPriceCents + stencilsCreated * stencilPriceCents

/-- `BillingService.createUsageTransaction`: no-op when the charge is
not positive, otherwise insert the negative `usage_charge` transaction
(the balance trigger may abort it). -/
def createUsageTransaction (copyPriceCents stencilPriceCents : Int) (st : DBState)
    (userId copiesPrinted stencilsCreated : Int) : Option DBState :=
  let total := calculateUsageCharges copyPriceCents stencilPriceCents
    copiesPrinted stencilsCreated
  if total ≤ 0 then some st
  else insertCreditTransaction st ⟨userId, -total, "usage_charge"⟩

/-- The route's update/insert of `riso_last_seen_totals` keyed on the
user id. -/
def upsertLastSeen (rows : List RisoLastSeen) (row : RisoLastSeen) :
    List RisoLastSeen :=
  if rows.any fun x => x.userId == row.userId then
    rows.map fun x => if x.userId == row.userId then row else x
  else rows ++ [row]

/-- One user's slice of `POST /api/submit-usage-csv`: reconcile, bill
when positive, then unconditionally overwrite the stored totals —
unless billing aborted, in which case the totals update is skipped
(the per-user `catch`). -/
def processUserReport (copyPriceCents stencilPriceCents : Int) (st : DBState)
    (userId totalCopies masterCount reportDate : Int) : Option DBState :=
  let lastSeen := st.risoLastSeenTotals.find? fun r => r.userId == userId
  let bill := reconcileUsage userId lastSeen totalCopies masterCount reportDate
  let step1 : Option DBState :=
    if 0 < bill.copiesToBill ∨ 0 < bill.stencilsToBill then
      createUsageTransaction copyPriceCents stencilPriceCents
        { st with risographUsages := st.risographUsages ++
            [⟨userId, bill.copiesToBill, bill.stencilsToBill⟩] }
        userId bill.copiesToBill bill.stencilsToBill
    else some st
  match step1 with
  | none => none
  | some st2 =>
    some { st2 with
      risoLastSeenTotals := upsertLastSeen st2.risoLastSeenTotals bill.newTotals }

/-- C7 (counterexample): stored totals are lastSeen = (100 copies, 10
stencils), all billed.  A new report of (150 copies, 5 stencils) resets
only the stencil counter, yet the code bills 150 copies — the full
reset formula `max(0, 100−100) + 150` — not the claimed per-counter
positive difference `150 − 100 = 50`. -/
theorem claim_C7_counterexample :
    ((100:Int) ≤ 150) ∧ ((5:Int) < 10) ∧
    (reconcileUsage 1 (some ⟨1, 100, 10, 100, 10, 0⟩) 150 5 0).copiesToBill = 150 ∧
    (reconcileUsage 1 (some ⟨1, 100, 10, 100, 10, 0⟩) 150 5 0).copiesToBill ≠ 150 - 100 := by
  refine ⟨by norm_num, by norm_num, by decide, by decide⟩

/-- C7 (amended): whenever a reset is detected — i.e. *either* counter
dropped below its last-seen value — the route bills *both* counters by
the reset formula `max(0, lastSeen − cumulativeBilled) + newValue`; the
computation is not applied independently per counter, so a counter
whose new value is ≥ its last-seen value is also billed by the reset
formula when the other counter has reset. -/
theorem claim_C7_amended (uid tc mc d : Int) (ls : RisoLastSeen)
    (hreset : tc < ls.lastSeenCopies ∨ mc < ls.lastSeenStencils) :
    (reconcileUsage uid (some ls) tc mc d).copiesToBill
        = max 0 (ls.lastSeenCopies - ls.cumulativeCopiesBilled) + tc ∧
    (reconcileUsage uid (some ls) tc mc d).stencilsToBill
        = max 0 (ls.lastSeenStencils - ls.cumulativeStencilsBilled) + mc ∧
    (reconcileUsage uid (some ls) tc mc d).resetDetected = true := by
  refine ⟨?_, ?_, ?_⟩ <;> simp [reconcileUsage, if_pos hreset, hreset]

/-- Witness for C7 (amended): the spec's own example — last-seen copies
100, billed 100, new report 40 → bill `max(0, 100−100) + 40 = 40`. -/
theorem claim_C7_amended_witness :
    (reconcileUsage 1 (some ⟨1, 100, 10, 100, 10, 0⟩) 40 10 0).copiesToBill
        = max 0 ((100:Int) - 100) + 40 ∧
    (reconcileUsage 1 (some ⟨1, 100, 10, 100, 10, 0⟩) 40 10 0).stencilsToBill
        = max 0 ((10:Int) - 10) + 10 ∧
    (reconcileUsage 1 (some ⟨1, 100, 10, 100, 10, 0⟩) 40 10 0).resetDetected = true :=
  claim_C7_amended 1 40 10 0 ⟨1, 100, 10, 100, 10, 0⟩ (by norm_num)

lemma upsertLastSeen_find (rows : List RisoLastSeen) (row : RisoLastSeen) :
    ((upsertLastSeen rows row).find? fun x => x.userId == row.userId) = some row := by
  unfold upsertLastSeen
  split
  · next hany =>
    induction rows with
    | nil => simp at hany
    | cons r rs ih =>
      by_cases hr : r.userId = row.userId
      · simp [List.find?_cons, hr]
      · have hany2 : (rs.any fun x => x.userId == row.userId) = true := by
          simpa [List.any_cons, hr] using hany
        rw [List.map_cons, if_neg (by simp [hr])]
        rw [List.find?_cons_of_neg _ (by simp [hr])]
        exact ih hany2
  · next hany =>
    have hnone : (rows.find? fun x => x.userId == row.userId) = none := by
      rw [List.find?_eq_none]
      intro x hx hpx
      exact absurd (List.any_eq_true.mpr ⟨x, hx, hpx⟩) hany
    rw [List.find?_append, hnone]
    simp

lemma upsertLastSeen_all (rows : List RisoLastSeen) (row x : RisoLastSeen)
    (hx : x ∈ upsertLastSeen rows row) (hid : x.userId = row.userId) : x = row := by
  unfold upsertLastSeen at hx
  split at hx
  · rw [List.mem_map] at hx
    obtain ⟨y, hy, hyx⟩ := hx
    by_cases hq : y.userId = row.userId
    · rw [if_pos (by simp [hq])] at hyx
      exact hyx.symm
    · rw [if_neg (by simp [hq])] at hyx
      exact absurd (hyx ▸ hid) hq
  · rw [List.mem_append] at hx
    rcases hx with hx | hx
    · next hany =>
      exfalso
      exact absurd (List.any_eq_true.mpr ⟨x, hx, by simp [hid]⟩) hany
    · simpa using hx

lemma upsertLastSeen_id (l : List RisoLastSeen) (row : RisoLastSeen)
    (hex : (l.any fun x => x.userId == row.userId) = true)
    (hall : ∀ x ∈ l, x.userId = row.userId → x = row) :
    upsertLastSeen l row = l := by
  unfold upsertLastSeen
  rw [if_pos hex]
  have : ∀ x ∈ l, (if x.userId == row.userId then row else x) = x := by
    intro x hx
    by_cases hq : x.userId = row.userId
    · rw [if_pos (by simp [hq])]
      exact (hall x hx hq).symm
    · rw [if_neg (by simp [hq])]
  rw [List.map_congr_left this]
  simp

lemma insertCredit_totals (st : DBState) (t : CreditTransaction) (st2 : DBState)
    (h : insertCreditTransaction st t = some st2) :
    st2.risoLastSeenTotals = st.risoLastSeenTotals := by
  simp only [insertCreditTransaction, find_upsert] at h
  split at h
  · exact absurd h (by simp)
  · cases h
    rfl

lemma createUsage_totals (cp sp : Int) (st : DBState) (uid c s : Int) (st2 : DBState)
    (h : createUsageTransaction cp sp st uid c s = some st2) :
    st2.risoLastSeenTotals = st.risoLastSeenTotals := by
  simp only [createUsageTransaction] at h
  split at h
  · cases h
    rfl
  · exact insertCredit_totals _ _ _ h

lemma processUserReport_totals (cp sp : Int) (st : DBState) (uid tc mc d : Int)
    (st1 : DBState) (h : processUserReport cp sp st uid tc mc d = some st1) :
    st1.risoLastSeenTotals =
      upsertLastSeen st.risoLastSeenTotals
        (reconcileUsage uid (st.risoLastSeenTotals.find? fun r => r.userId == uid)
          tc mc d).newTotals := by
  simp only [processUserReport] at h
  split at h
  · exact absurd h (by simp)
  · next st2 heq =>
    cases h
    split at heq
    · have := createUsage_totals _ _ _ _ _ _ _ heq
      simp only [this]
    · cases heq
      rfl

/-- C8 (confirmed): after a report for a user has been processed,
re-processing a report with identical cumulative counters bills zero
copies and zero stencils and leaves the state exactly unchanged — in
particular it creates no usage row and no usage-charge transaction —
because the stored last-seen / cumulative-billed totals were
overwritten by the first report. -/
theorem claim_C8 (cp sp : Int) (st : DBState) (uid tc mc d : Int) (st1 : DBState)
    (h : processUserReport cp sp st uid tc mc d = some st1) :
    (reconcileUsage uid (st1.risoLastSeenTotals.find? fun r => r.userId == uid)
        tc mc d).copiesToBill = 0 ∧
    (reconcileUsage uid (st1.risoLastSeenTotals.find? fun r => r.userId == uid)
        tc mc d).stencilsToBill = 0 ∧
    processUserReport cp sp st1 uid tc mc d = some st1 := by
  have htot := processUserReport_totals cp sp st uid tc mc d st1 h
  set bill := reconcileUsage uid
    (st.risoLastSeenTotals.find? fun r => r.userId == uid) tc mc d with hbill
  have hid : bill.newTotals.userId = uid := rfl
  have hfind : (st1.risoLastSeenTotals.find? fun r => r.userId == uid)
      = some bill.newTotals := by
    rw [htot]
    have := upsertLastSeen_find st.risoLastSeenTotals bill.newTotals
    rw [hid] at this
    exact this
  have hrec2 : reconcileUsage uid (some bill.newTotals) tc mc d
      = ⟨0, 0, false, bill.newTotals⟩ := by
    have h1 : bill.newTotals.lastSeenCopies = tc := rfl
    have h2 : bill.newTotals.lastSeenStencils = mc := rfl
    have h4 : bill.newTotals.lastReportDate = d := rfl
    rcases hNT : bill.newTotals with ⟨a1, a2, a3, a4, a5, a6⟩
    rw [hNT] at h1 h2 h4 hid
    simp only at h1 h2 h4 hid
    subst h1 h2 h4 hid
    simp only [reconcileUsage]
    rw [if_neg (by omega : ¬(a2 < a2 ∨ a3 < a3)), if_neg (by omega : ¬(a2 < a2 ∨ a3 < a3))]
    simp [UsageBill.mk.injEq, RisoLastSeen.mk.injEq]
  rw [hfind, hrec2]
  refine ⟨rfl, rfl, ?_⟩
  simp only [processUserReport, hfind, hrec2]
  rw [if_neg (by norm_num)]
  have hup : upsertLastSeen st1.risoLastSeenTotals bill.newTotals
      = st1.risoLastSeenTotals := by
    apply upsertLastSeen_id
    · exact List.any_eq_true.mpr
        ⟨bill.newTotals, List.mem_of_find?_eq_some hfind, by simp [hid]⟩
    · intro x hx hxid
      rw [htot] at hx
      exact upsertLastSeen_all _ _ _ hx hxid
  simp only [hup]

/-- The state after processing a (0, 0) report for user 1 at date 5 on
`oneUnitState`. -/
def processUserReportWitnessState : DBState :=
  { oneUnitState with risoLastSeenTotals := [⟨1, 0, 0, 0, 0, 5⟩] }

/-- Witness for C8: processing a (0, 0) report for user 1 on the empty
state succeeds, and re-processing the identical report bills nothing
and leaves the state unchanged. -/
theorem claim_C8_witness :
    (reconcileUsage 1 ((processUserReportWitnessState).risoLastSeenTotals.find?
        fun r => r.userId == 1) 0 0 5).copiesToBill = 0 ∧
    (reconcileUsage 1 ((processUserReportWitnessState).risoLastSeenTotals.find?
        fun r => r.userId == 1) 0 0 5).stencilsToBill = 0 ∧
    processUserReport 10 150 processUserReportWitnessState 1 0 0 5
      = some processUserReportWitnessState :=
  claim_C8 10 150 oneUnitState 1 0 0 5 processUserReportWitnessState (by decide)

/-! ## Redeeming a signed offer (C4) -/

lemma find?_eq_some_of_unique {α : Type} (l : List α) (p : α → Bool) (a : α)
    (ha : a ∈ l) (hpa : p a = true) (huniq : ∀ b ∈ l, p b = true → b = a) :
    l.find? p = some a := by
  induction l with
  | nil => cases ha
  | cons x xs ih =>
    by_cases hx : p x = true
    · rw [List.find?_cons_of_pos _ hx]
      exact congrArg some (huniq x (.head xs) hx)
    · rw [List.find?_cons_of_neg _ (by simp [hx])]
      rcases List.mem_cons.mp ha with rfl | ha2
      · exact absurd hpa hx
      · exact ih ha2 fun b hb hpb => huniq b (.tail x hb) hpb

/-- A token produced by `signSlot` for exactly the presented fields
verifies while unexpired. -/
lemma verify_signSlot (secret : String) (nowMs : Int) (slot : Range)
    (uid price issueMs : Int)
    (h : Int.fdiv nowMs 1000 < Int.fdiv issueMs 1000 + 15 * 60) :
    verifySlotSignature secret nowMs
      ⟨slot, uid, price, signSlot slot uid price issueMs secret⟩ = true := by
  rw [signSlot, verifySlot_reduce]
  simp
  omega

lemma genSeries_self (a : Int) : genSeries a a = [a] := by
  unfold genSeries
  rw [if_pos le_rfl, Int.sub_self]
  rfl

/-- The capacity query over a single aligned bucket. -/
lemma remaining_single_bucket (st : DBState) (g : Int) (hg : alignedStart g = g) :
    remainingCapacityByHalfHour st g (g + bucketMs) = bucketRows st ⟨g, g + bucketMs⟩ := by
  unfold remainingCapacityByHalfHour
  rw [hg, add_sub_cancel_right, genSeries_self]
  simp

lemma overlapCount_zero (bks : List Booking) (uid : Int) (bucket : Range)
    (hfree : ∀ b ∈ bks, b.unitId = uid → rangesOverlap b.slot bucket = false) :
    overlapCount bks uid bucket = 0 := by
  unfold overlapCount
  rw [List.filter_eq_nil_iff.mpr]
  · rfl
  · intro b hb
    by_cases hq : b.unitId = uid
    · simp [hfree b hb hq]
    · simp [hq]

lemma rangesOverlap_refl (a : Range) (h : a.lo < a.hi) :
    rangesOverlap a a = true := by
  simp only [rangesOverlap, max_self, min_self, decide_eq_true_eq]
  exact h

/-- With a unique unit id, the bucket's row for that unit is found. -/
lemma bucketRows_find (st : DBState) (u : Unit) (g : Int)
    (hu : u ∈ st.units) (hact : u.active = true)
    (huniq : ∀ v ∈ st.units, v.unitId = u.unitId → v = u)
    (hbo : blackoutFree st.blackouts u.unitId ⟨g, g + bucketMs⟩ = true)
    (hpos : 0 < u.capacity - (overlapCount st.bookings u.unitId ⟨g, g + bucketMs⟩ : Int)) :
    ((bucketRows st ⟨g, g + bucketMs⟩).find? fun c =>
        c.unit_id == u.unitId && c.bucket.lo == g) =
      some ⟨⟨g, g + bucketMs⟩, u.unitId,
        u.capacity - (overlapCount st.bookings u.unitId ⟨g, g + bucketMs⟩ : Int)⟩ := by
  apply find?_eq_some_of_unique
  · exact (mem_bucketRows st _ _).mpr ⟨u, hu, hact, hbo, hpos, rfl⟩
  · simp
  · intro r hr hpr
    obtain ⟨v, hv, hvact, hvbo, hvpos, rfl⟩ := (mem_bucketRows st _ _).mp hr
    simp only [Bool.and_eq_true, beq_iff_eq] at hpr
    have hvu := huniq v hv hpr.1
    subst hvu
    rfl

/-- With a unique unit id and non-positive remaining capacity, no row
for that unit (and bucket start) is found. -/
lemma bucketRows_find_none (st : DBState) (u : Unit) (g : Int)
    (huniq : ∀ v ∈ st.units, v.unitId = u.unitId → v = u)
    (hnpos : ¬ 0 < u.capacity -
      (overlapCount st.bookings u.unitId ⟨g, g + bucketMs⟩ : Int)) :
    ((bucketRows st ⟨g, g + bucketMs⟩).find? fun c =>
        c.unit_id == u.unitId && c.bucket.lo == g) = none := by
  rw [List.find?_eq_none]
  intro r hr hpr
  obtain ⟨v, hv, hvact, hvbo, hvpos, rfl⟩ := (mem_bucketRows st _ _).mp hr
  simp only [Bool.and_eq_true, beq_iff_eq] at hpr
  have hvu := huniq v hv hpr.1
  subst hvu
  exact hnpos hvpos

/-- C4 (amended): redeeming a well-formed, unexpired offer for an
aligned bucket whose unit is active and blackout-free, and on which no
booking row of *any* status overlaps, succeeds and inserts a confirmed
booking.  The overlap-freedom condition is essential and strictly
stronger than "capacity state unchanged since issuance": a
pre-existing overlapping cancelled row leaves the re-derived remaining
capacity positive yet fails even the first insert on the exclusion
constraint (see the counterexample).  Redeeming the same offer a
second time always fails: when the
unit's capacity is 1 the re-derived remaining capacity inside the
transaction has dropped to 0 and the application rejects with the
`'Slot no longer available'` condition; when the capacity is ≥ 2 the
application-level re-check still passes and the storage exclusion
constraint rejects the overlapping insert, surfacing as the raw
constraint violation, not the `'Slot no longer available'` condition. -/
theorem claim_C4_amended (st : DBState) (secret : String) (u : Unit)
    (g price issueMs now1 now2 userId : Int)
    (hu : u ∈ st.units) (hact : u.active = true) (hcap : 0 < u.capacity)
    (huniq : ∀ v ∈ st.units, v.unitId = u.unitId → v = u)
    (hg : alignedStart g = g)
    (ht1 : Int.fdiv now1 1000 < Int.fdiv issueMs 1000 + 15 * 60)
    (ht2 : Int.fdiv now2 1000 < Int.fdiv issueMs 1000 + 15 * 60)
    (hfree : ∀ b ∈ st.bookings, b.unitId = u.unitId →
      rangesOverlap b.slot ⟨g, g + bucketMs⟩ = false)
    (hbo : blackoutFree st.blackouts u.unitId ⟨g, g + bucketMs⟩ = true) :
    ∃ st1,
      bookSlot st secret now1 userId
          ⟨⟨g, g + bucketMs⟩, u.unitId, price,
            signSlot ⟨g, g + bucketMs⟩ u.unitId price issueMs secret⟩ = .ok st1 ∧
      st1.bookings = st.bookings ++
        [⟨st.nextBookingId, userId, u.unitId, ⟨g, g + bucketMs⟩, .confirmed, now1⟩] ∧
      bookSlot st1 secret now2 userId
          ⟨⟨g, g + bucketMs⟩, u.unitId, price,
            signSlot ⟨g, g + bucketMs⟩ u.unitId price issueMs secret⟩ =
        .error (if u.capacity = 1 then .slotNoLongerAvailable
          else .exclusionViolation) := by
  have hbucket : (⟨g, g + bucketMs⟩ : Range).lo < (⟨g, g + bucketMs⟩ : Range).hi := by
    have : bucketMs = 1800000 := rfl
    simp only [this]
    omega
  have hfindU : findUnit st u.unitId = some u := by
    apply find?_eq_some_of_unique _ _ u hu (by simp [hact])
    intro v hv hpv
    simp only [Bool.and_eq_true, beq_iff_eq] at hpv
    exact huniq v hv hpv.1
  have hoc : overlapCount st.bookings u.unitId ⟨g, g + bucketMs⟩ = 0 :=
    overlapCount_zero _ _ _ hfree
  have hver1 := verify_signSlot secret now1 ⟨g, g + bucketMs⟩ u.unitId price issueMs ht1
  have hany : (st.bookings.any fun b =>
      b.unitId == u.unitId && rangesOverlap b.slot ⟨g, g + bucketMs⟩) = false := by
    rw [List.any_eq_false]
    intro b hb
    by_cases hq : b.unitId = u.unitId
    · simp [hfree b hb hq]
    · simp [hq]
  -- the state after the successful first redemption
  set bk : Booking :=
    ⟨st.nextBookingId, userId, u.unitId, ⟨g, g + bucketMs⟩, .confirmed, now1⟩ with hbk
  set st1 : DBState := { st with
    bookings := st.bookings ++ [bk],
    nextBookingId := st.nextBookingId + 1 } with hst1
  have hrow := bucketRows_find st u g hu hact huniq hbo (by rw [hoc]; simpa using hcap)
  have hbook1 : bookSlot st secret now1 userId
      ⟨⟨g, g + bucketMs⟩, u.unitId, price,
        signSlot ⟨g, g + bucketMs⟩ u.unitId price issueMs secret⟩ = .ok st1 := by
    rw [bookSlot]
    rw [hver1]
    simp only [Bool.not_true, Bool.false_eq_true, if_false, hfindU]
    rw [remaining_single_bucket st g hg, hrow]
    dsimp only
    rw [if_neg (by rw [hoc]; simp; omega)]
    rw [insertBooking, if_neg (by simp [hany])]
  refine ⟨st1, hbook1, by rw [hst1], ?_⟩
  -- second redemption
  have hver2 := verify_signSlot secret now2 ⟨g, g + bucketMs⟩ u.unitId price issueMs ht2
  have hfindU1 : findUnit st1 u.unitId = some u := hfindU
  have hoc1 : overlapCount st1.bookings u.unitId ⟨g, g + bucketMs⟩ = 1 := by
    unfold overlapCount
    rw [hst1]
    simp only [List.filter_append, List.length_append]
    have h1 : (st.bookings.filter fun b =>
        b.unitId == u.unitId && rangesOverlap b.slot ⟨g, g + bucketMs⟩ &&
          b.status == .confirmed) = [] := by
      rw [List.filter_eq_nil_iff]
      intro b hb
      by_cases hq : b.unitId = u.unitId
      · simp [hfree b hb hq]
      · simp [hq]
    have h2 : ([bk].filter fun b =>
        b.unitId == u.unitId && rangesOverlap b.slot ⟨g, g + bucketMs⟩ &&
          b.status == .confirmed) = [bk] := by
      rw [List.filter_eq_self]
      intro b hb
      rw [List.mem_singleton] at hb
      subst hb
      simp [hbk, rangesOverlap_refl _ hbucket]
    rw [h1, h2]
    rfl
  have huniq1 : ∀ v ∈ st1.units, v.unitId = u.unitId → v = u := huniq
  by_cases hc1 : u.capacity = 1
  · -- remaining is now 0: the application-level re-check rejects
    have hnone := bucketRows_find_none st1 u g huniq1
      (by rw [hoc1, hc1]; simp)
    rw [bookSlot]
    rw [hver2]
    simp only [Bool.not_true, Bool.false_eq_true, if_false, hfindU1]
    rw [remaining_single_bucket st1 g hg, hnone, if_pos hc1]
  · -- remaining is still positive: the exclusion constraint rejects
    have hrow1 := bucketRows_find st1 u g hu hact huniq1 hbo
      (by rw [hoc1]; simp; omega)
    have hany1 : (st1.bookings.any fun b =>
        b.unitId == u.unitId && rangesOverlap b.slot ⟨g, g + bucketMs⟩) = true := by
      rw [List.any_eq_true]
      exact ⟨bk, by rw [hst1]; simp, by simp [hbk, rangesOverlap_refl _ hbucket]⟩
    rw [bookSlot]
    rw [hver2]
    simp only [Bool.not_true, Bool.false_eq_true, if_false, hfindU1]
    rw [remaining_single_bucket st1 g hg, hrow1]
    dsimp only
    rw [if_neg (by rw [hoc1]; simp; omega)]
    rw [insertBooking, if_pos (by simp [hany1]), if_neg hc1]

/-- Witness for C4 (amended): on `oneUnitState` (capacity 1) the first
redemption of the offer for bucket `[0, 30min)` succeeds and the second
fails with `'Slot no longer available'`. -/
theorem claim_C4_amended_witness :
    ∃ st1,
      bookSlot oneUnitState "k" 0 7
          ⟨⟨0, 0 + bucketMs⟩, 1, 0, signSlot ⟨0, 0 + bucketMs⟩ 1 0 0 "k"⟩ = .ok st1 ∧
      st1.bookings = oneUnitState.bookings ++
        [⟨oneUnitState.nextBookingId, 7, 1, ⟨0, 0 + bucketMs⟩, .confirmed, 0⟩] ∧
      bookSlot st1 "k" 0 7
          ⟨⟨0, 0 + bucketMs⟩, 1, 0, signSlot ⟨0, 0 + bucketMs⟩ 1 0 0 "k"⟩ =
        .error .slotNoLongerAvailable := by
  have h := claim_C4_amended oneUnitState "k" ⟨1, 1, "", true⟩ 0 0 0 0 0 7
    (by decide) (by decide) (by decide) (by decide) (by decide)
    (by decide) (by decide) (by decide) (by decide)
  exact h

/-- A single active unit of capacity 2, otherwise like `oneUnitState`. -/
def twoCapState : DBState := { oneUnitState with units := [⟨1, 2, "", true⟩] }

/-- The state after the first successful redemption on `twoCapState`. -/
def twoCapAfterFirst : DBState := { twoCapState with
  bookings := [⟨1, 7, 1, ⟨0, bucketMs⟩, .confirmed, 0⟩], nextBookingId := 2 }

/-- A capacity-1 unit with one *cancelled* booking covering the bucket
`[0, 30min)`; its confirmed-only remaining capacity is the full 1, the
same as with no bookings at all. -/
def cancelledRowState : DBState := { oneUnitState with
  bookings := [⟨1, 7, 1, ⟨0, bucketMs⟩, .cancelled, 0⟩], nextBookingId := 2 }

/-- C4 (counterexample): two refutations of the claim as stated.
First, on a unit of capacity 2 the second redemption of the same offer
does *not* fail with the `'Slot no longer available'` condition: the
application-level capacity re-check passes (remaining is 1 > 0) and
the storage exclusion constraint rejects the insert, a distinct
generic failure.  Second, "capacity state is unchanged since issuance"
does not make the first redemption succeed: with a pre-existing
*cancelled* row covering the bucket, the capacity query still reports
the full remaining capacity (so the offer is issued and nothing has
changed since), yet already the first redemption fails on the
`no_overlap_per_unit` constraint. -/
theorem claim_C4_counterexample :
    (bookSlot twoCapState "k" 0 7
        ⟨⟨0, bucketMs⟩, 1, 0, signSlot ⟨0, bucketMs⟩ 1 0 0 "k"⟩ = .ok twoCapAfterFirst ∧
      bookSlot twoCapAfterFirst "k" 0 7
          ⟨⟨0, bucketMs⟩, 1, 0, signSlot ⟨0, bucketMs⟩ 1 0 0 "k"⟩ =
        .error .exclusionViolation ∧
      BookErr.exclusionViolation ≠ BookErr.slotNoLongerAvailable) ∧
    ((∃ b ∈ cancelledRowState.bookings, b.status = .cancelled ∧
        rangesOverlap b.slot ⟨0, bucketMs⟩ = true) ∧
      remainingCapacityByHalfHour cancelledRowState 0 bucketMs
        = [⟨⟨0, bucketMs⟩, 1, 1⟩] ∧
      remainingCapacityByHalfHour cancelledRowState 0 bucketMs
        = remainingCapacityByHalfHour oneUnitState 0 bucketMs ∧
      bookSlot cancelledRowState "k" 0 9
          ⟨⟨0, bucketMs⟩, 1, 0, signSlot ⟨0, bucketMs⟩ 1 0 0 "k"⟩ =
        .error .exclusionViolation) := by
  refine ⟨⟨rfl, rfl, by decide⟩, ⟨by decide, rfl, rfl, rfl⟩⟩

/-! ## Cancellation frame (C10) -/

lemma filter_id_le_one (l : List Booking) (bid : Int)
    (h : (l.map fun b => b.bookingId).Nodup) :
    (l.filter fun b => b.bookingId == bid).length ≤ 1 := by
  induction l with
  | nil => simp
  | cons x xs ih =>
    rw [List.map_cons, List.nodup_cons] at h
    by_cases hx : x.bookingId = bid
    · rw [List.filter_cons_of_pos (by simp [hx])]
      have hnil : (xs.filter fun b => b.bookingId == bid) = [] := by
        rw [List.filter_eq_nil_iff]
        intro b hb hpb
        apply h.1
        rw [List.mem_map]
        simp only [beq_iff_eq] at hpb
        exact ⟨b, hb, by rw [hpb, hx]⟩
      rw [hnil]
      simp
    · rw [List.filter_cons_of_neg (by simp [hx])]
      exact ih h.2

/-- C10 (confirmed): `cancelBooking` mutates at most the status field
of the single booking row identified by `bookingId` (unique by primary
key): every other table and the bookings of other ids are untouched,
the bookings list keeps its length, a row with the id is cancelled in
place, and when the call returns `false` the entire state is unchanged.
The call returns `true` exactly when the identified booking belongs to
the caller and is confirmed. -/
theorem claim_C10 (st : DBState) (bookingId userId : Int)
    (hpk : (st.bookings.map fun b => b.bookingId).Nodup) :
    ((cancelBooking st bookingId userId).1 = false →
      (cancelBooking st bookingId userId).2 = st) ∧
    ((cancelBooking st bookingId userId).1 = true ↔
      ∃ b ∈ st.bookings, b.bookingId = bookingId ∧ b.userId = userId ∧
        b.status = .confirmed) ∧
    (st.bookings.filter fun b => b.bookingId == bookingId).length ≤ 1 ∧
    (cancelBooking st bookingId userId).2.units = st.units ∧
    (cancelBooking st bookingId userId).2.blackouts = st.blackouts ∧
    (cancelBooking st bookingId userId).2.users = st.users ∧
    (cancelBooking st bookingId userId).2.creditTransactions = st.creditTransactions ∧
    (cancelBooking st bookingId userId).2.creditBalances = st.creditBalances ∧
    (cancelBooking st bookingId userId).2.risoLastSeenTotals = st.risoLastSeenTotals ∧
    (cancelBooking st bookingId userId).2.risographUsages = st.risographUsages ∧
    (cancelBooking st bookingId userId).2.nextBookingId = st.nextBookingId ∧
    (cancelBooking st bookingId userId).2.bookings.length = st.bookings.length ∧
    (∀ b ∈ st.bookings, b.bookingId ≠ bookingId →
      b ∈ (cancelBooking st bookingId userId).2.bookings) ∧
    (∀ b ∈ st.bookings, b.bookingId = bookingId →
      b ∈ (cancelBooking st bookingId userId).2.bookings ∨
        { b with status := BookingStatus.cancelled }
          ∈ (cancelBooking st bookingId userId).2.bookings) := by
  unfold cancelBooking
  cases hf : st.bookings.find? fun b =>
      b.bookingId == bookingId && b.userId == userId && b.status == .confirmed with
  | none =>
    refine ⟨fun _ => rfl, ?_, filter_id_le_one st.bookings bookingId hpk,
      rfl, rfl, rfl, rfl, rfl, rfl, rfl, rfl, rfl,
      fun b hb _ => hb, fun b hb _ => Or.inl hb⟩
    constructor
    · intro habs
      exact absurd habs (by simp)
    · rintro ⟨b, hb, h1, h2, h3⟩
      have := List.find?_eq_none.mp hf b hb
      simp [h1, h2, h3] at this
  | some b0 =>
    have hb0mem := List.mem_of_find?_eq_some hf
    have hb0p := List.find?_some hf
    simp only [Bool.and_eq_true, beq_iff_eq] at hb0p
    have hcnt : 0 < (st.bookings.filter fun b => b.bookingId == bookingId).length :=
      List.length_pos_of_mem (List.mem_filter.mpr ⟨hb0mem, by simp [hb0p.1.1]⟩)
    dsimp only
    refine ⟨?_, ?_, filter_id_le_one st.bookings bookingId hpk,
      rfl, rfl, rfl, rfl, rfl, rfl, rfl, rfl, List.length_map _ _, ?_, ?_⟩
    · intro habs
      exact absurd hcnt (of_decide_eq_false habs)
    · constructor
      · intro _
        exact ⟨b0, hb0mem, hb0p.1.1, hb0p.1.2, hb0p.2⟩
      · intro _
        exact decide_eq_true hcnt
    · intro b hb hne
      rw [List.mem_map]
      exact ⟨b, hb, by rw [if_neg (by simp [hne])]⟩
    · intro b hb heq
      right
      rw [List.mem_map]
      exact ⟨b, hb, by rw [if_pos (by simp [heq])]⟩

/-- Witness for C10 at a concrete state: cancelling booking 1 of user 7
on the state produced by the C4 witness's first redemption. -/
theorem claim_C10_witness :
    ((cancelBooking twoCapAfterFirst 1 7).1 = false →
      (cancelBooking twoCapAfterFirst 1 7).2 = twoCapAfterFirst) ∧
    ((cancelBooking twoCapAfterFirst 1 7).1 = true ↔
      ∃ b ∈ twoCapAfterFirst.bookings, b.bookingId = 1 ∧ b.userId = 7 ∧
        b.status = .confirmed) ∧
    (twoCapAfterFirst.bookings.filter fun b => b.bookingId == 1).length ≤ 1 ∧
    (cancelBooking twoCapAfterFirst 1 7).2.units = twoCapAfterFirst.units ∧
    (cancelBooking twoCapAfterFirst 1 7).2.blackouts = twoCapAfterFirst.blackouts ∧
    (cancelBooking twoCapAfterFirst 1 7).2.users = twoCapAfterFirst.users ∧
    (cancelBooking twoCapAfterFirst 1 7).2.creditTransactions
      = twoCapAfterFirst.creditTransactions ∧
    (cancelBooking twoCapAfterFirst 1 7).2.creditBalances
      = twoCapAfterFirst.creditBalances ∧
    (cancelBooking twoCapAfterFirst 1 7).2.risoLastSeenTotals
      = twoCapAfterFirst.risoLastSeenTotals ∧
    (cancelBooking twoCapAfterFirst 1 7).2.risographUsages
      = twoCapAfterFirst.risographUsages ∧
    (cancelBooking twoCapAfterFirst 1 7).2.nextBookingId
      = twoCapAfterFirst.nextBookingId ∧
    (cancelBooking twoCapAfterFirst 1 7).2.bookings.length
      = twoCapAfterFirst.bookings.length ∧
    (∀ b ∈ twoCapAfterFirst.bookings, b.bookingId ≠ 1 →
      b ∈ (cancelBooking twoCapAfterFirst 1 7).2.bookings) ∧
    (∀ b ∈ twoCapAfterFirst.bookings, b.bookingId = 1 →
      b ∈ (cancelBooking twoCapAfterFirst 1 7).2.bookings ∨
        { b with status := BookingStatus.cancelled }
          ∈ (cancelBooking twoCapAfterFirst 1 7).2.bookings) :=
  claim_C10 twoCapAfterFirst 1 7 (by decide)

/-! ## The storage non-overlap invariant over reachable states (C9)

The exclusion constraint `no_overlap_per_unit` has no status filter, and
`cancelBooking` only flips `status` (never deletes).  We model the
engine's mutating operations as a step relation and show the pairwise
non-overlap of *all* booking rows is an invariant of every reachable
state, and that a custom-range booking overlapping a cancelled row's
interval on an active unit is rejected by the constraint. -/

/-- No two booking rows on the same unit have overlapping slots,
regardless of status. -/
def NoOverlapPerUnit (bks : List Booking) : Prop :=
  bks.Pairwise fun a b => a.unitId = b.unitId → rangesOverlap a.slot b.slot = false

/-- One mutating operation of the engine (a failed operation aborts its
transaction and takes no step; unit/blackout administration is the
external collaborator's arbitrary edit). -/
inductive Step (secret : String) : DBState → DBState → Prop where
  | book (nowMs userId : Int) (s : AvailableSlot) (st st2 : DBState) :
      bookSlot st secret nowMs userId s = .ok st2 → Step secret st st2
  | bookCustom (nowMs userId : Int) (slot : Range) (unitId : Int) (st st2 : DBState) :
      bookCustomTimeRange st nowMs userId slot unitId = .ok st2 → Step secret st st2
  | cancel (bookingId userId : Int) (st : DBState) :
      Step secret st (cancelBooking st bookingId userId).2
  | credit (t : CreditTransaction) (st st2 : DBState) :
      insertCreditTransaction st t = some st2 → Step secret st st2
  | usage (copyPriceCents stencilPriceCents userId totalCopies masterCount
        reportDate : Int) (st st2 : DBState) :
      processUserReport copyPriceCents stencilPriceCents st userId totalCopies
        masterCount reportDate = some st2 → Step secret st st2
  | admin (st : DBState) (units2 : List Unit) (blackouts2 : List Blackout) :
      Step secret st { st with units := units2, blackouts := blackouts2 }

lemma insertBooking_inv (st : DBState) (userId unitId : Int) (slot : Range)
    (nowMs : Int) (st2 : DBState)
    (h : insertBooking st userId unitId slot nowMs = .ok st2)
    (hinv : NoOverlapPerUnit st.bookings) : NoOverlapPerUnit st2.bookings := by
  unfold insertBooking at h
  split at h
  · exact absurd h (by simp)
  · next hany =>
    cases h
    unfold NoOverlapPerUnit at hinv ⊢
    rw [List.pairwise_append]
    refine ⟨hinv, List.pairwise_singleton _ _, ?_⟩
    intro a ha b hb
    rw [List.mem_singleton] at hb
    subst hb
    intro hid
    by_cases hov : rangesOverlap a.slot slot = true
    · exact absurd (List.any_eq_true.mpr ⟨a, ha, by simp [hid, hov]⟩) hany
    · exact Bool.eq_false_iff.mpr hov

lemma bookSlot_inv (st : DBState) (secret : String) (nowMs userId : Int)
    (s : AvailableSlot) (st2 : DBState)
    (h : bookSlot st secret nowMs userId s = .ok st2)
    (hinv : NoOverlapPerUnit st.bookings) : NoOverlapPerUnit st2.bookings := by
  unfold bookSlot at h
  split at h
  · exact absurd h (by simp)
  · split at h
    · exact absurd h (by simp)
    · dsimp only at h
      split at h
      · exact absurd h (by simp)
      · split at h
        · exact absurd h (by simp)
        · exact insertBooking_inv _ _ _ _ _ _ h hinv

lemma bookCustom_inv (st : DBState) (nowMs userId : Int) (slot : Range)
    (unitId : Int) (st2 : DBState)
    (h : bookCustomTimeRange st nowMs userId slot unitId = .ok st2)
    (hinv : NoOverlapPerUnit st.bookings) : NoOverlapPerUnit st2.bookings := by
  unfold bookCustomTimeRange at h
  split at h
  · exact absurd h (by simp)
  · exact insertBooking_inv _ _ _ _ _ _ h hinv

lemma cancel_inv (st : DBState) (bookingId userId : Int)
    (hinv : NoOverlapPerUnit st.bookings) :
    NoOverlapPerUnit (cancelBooking st bookingId userId).2.bookings := by
  unfold cancelBooking
  cases hf : st.bookings.find? fun b =>
      b.bookingId == bookingId && b.userId == userId && b.status == .confirmed with
  | none => exact hinv
  | some b0 =>
    dsimp only
    unfold NoOverlapPerUnit at hinv ⊢
    rw [List.pairwise_map]
    apply hinv.imp
    intro a b hab
    have ha1 : (if a.bookingId == bookingId then
        { a with status := BookingStatus.cancelled } else a).unitId = a.unitId := by
      split <;> rfl
    have ha2 : (if a.bookingId == bookingId then
        { a with status := BookingStatus.cancelled } else a).slot = a.slot := by
      split <;> rfl
    have hb1 : (if b.bookingId == bookingId then
        { b with status := BookingStatus.cancelled } else b).unitId = b.unitId := by
      split <;> rfl
    have hb2 : (if b.bookingId == bookingId then
        { b with status := BookingStatus.cancelled } else b).slot = b.slot := by
      split <;> rfl
    rw [ha1, ha2, hb1, hb2]
    exact hab

lemma insertCredit_bookings (st : DBState) (t : CreditTransaction) (st2 : DBState)
    (h : insertCreditTransaction st t = some st2) : st2.bookings = st.bookings := by
  simp only [insertCreditTransaction, find_upsert] at h
  split at h
  · exact absurd h (by simp)
  · cases h
    rfl

lemma createUsage_bookings (cp sp : Int) (st : DBState) (uid c s : Int) (st2 : DBState)
    (h : createUsageTransaction cp sp st uid c s = some st2) :
    st2.bookings = st.bookings := by
  simp only [createUsageTransaction] at h
  split at h
  · cases h
    rfl
  · exact insertCredit_bookings _ _ _ h

lemma processUserReport_bookings (cp sp : Int) (st : DBState) (uid tc mc d : Int)
    (st1 : DBState) (h : processUserReport cp sp st uid tc mc d = some st1) :
    st1.bookings = st.bookings := by
  simp only [processUserReport] at h
  split at h
  · exact absurd h (by simp)
  · next st2 heq =>
    cases h
    split at heq
    · rw [createUsage_bookings _ _ _ _ _ _ _ heq]
    · cases heq
      rfl

/-- C9 (confirmed): starting from any state whose booking rows satisfy
the all-status non-overlap constraint, every state reachable through
the engine's operations still satisfies it, and a custom-range booking
on an active unit whose interval overlaps a *cancelled* booking's
interval is rejected at insert by the exclusion constraint —
cancelling never frees the slot for rebooking. -/
theorem claim_C9 (secret : String) (st0 st : DBState)
    (h0 : NoOverlapPerUnit st0.bookings)
    (hreach : Relation.ReflTransGen (Step secret) st0 st) :
    NoOverlapPerUnit st.bookings ∧
    ∀ b ∈ st.bookings, b.status = .cancelled →
      ∀ (slot : Range) (nowMs userId : Int), rangesOverlap b.slot slot = true →
        (findUnit st b.unitId).isSome = true →
        bookCustomTimeRange st nowMs userId slot b.unitId
          = .error .exclusionViolation := by
  have hinv : NoOverlapPerUnit st.bookings := by
    induction hreach with
    | refl => exact h0
    | tail hsteps hstep ih =>
      cases hstep with
      | book nowMs userId s st st2 h => exact bookSlot_inv _ _ _ _ _ _ h ih
      | bookCustom nowMs userId slot unitId st st2 h =>
        exact bookCustom_inv _ _ _ _ _ _ h ih
      | cancel bookingId userId st => exact cancel_inv _ _ _ ih
      | credit t st st2 h =>
        unfold NoOverlapPerUnit
        rw [insertCredit_bookings _ _ _ h]
        exact ih
      | usage cp sp userId tc mc d st st2 h =>
        unfold NoOverlapPerUnit
        rw [processUserReport_bookings _ _ _ _ _ _ _ _ h]
        exact ih
      | admin st units2 blackouts2 => exact ih
  refine ⟨hinv, ?_⟩
  intro b hb hcan slot nowMs userId hov hfind
  unfold bookCustomTimeRange
  cases hfu : findUnit st b.unitId with
  | none =>
    rw [hfu] at hfind
    simp at hfind
  | some u =>
    unfold insertBooking
    rw [if_pos]
    rw [List.any_eq_true]
    exact ⟨b, hb, by simp [hov]⟩

/-- The state after cancelling the C4-counterexample booking. -/
def twoCapCancelled : DBState := (cancelBooking twoCapAfterFirst 1 7).2

/-- Witness for C9: a state reached by booking `[0, 30min)` on the
capacity-2 unit and cancelling it satisfies the invariant, and a
custom-range booking overlapping the cancelled interval is rejected by
the exclusion constraint. -/
theorem claim_C9_witness :
    NoOverlapPerUnit twoCapCancelled.bookings ∧
    bookCustomTimeRange twoCapCancelled 5 9 ⟨900000, 2700000⟩ 1
      = .error .exclusionViolation := by
  have hreach : Relation.ReflTransGen (Step "k") twoCapState twoCapCancelled :=
    Relation.ReflTransGen.tail
      (Relation.ReflTransGen.tail Relation.ReflTransGen.refl
        (Step.book 0 7 ⟨⟨0, bucketMs⟩, 1, 0, signSlot ⟨0, bucketMs⟩ 1 0 0 "k"⟩
          twoCapState twoCapAfterFirst rfl))
      (Step.cancel 1 7 twoCapAfterFirst)
  have h := claim_C9 "k" twoCapState twoCapCancelled
    (by simp [NoOverlapPerUnit, twoCapState, oneUnitState]) hreach
  refine ⟨h.1, ?_⟩
  exact h.2 ⟨1, 7, 1, ⟨0, bucketMs⟩, .cancelled, 0⟩ (by decide) rfl
    ⟨900000, 2700000⟩ 5 9 (by decide) (by decide)

/-! ## The booking-density sweep (`getBookingDensity`, C6)

The source gathers the confirmed bookings of the unit overlapping the
window, counts those already active at the window start, accumulates
`{starts, ends}` deltas per distinct timestamp in the `changePoints`
Map (starts for booking starts strictly inside the window, ends for
booking ends strictly before its end), sorts the Map entries by
timestamp, and walks them emitting one interval per consecutive pair
of change points (plus the leading and trailing interval), each
carrying the running count before applying that timestamp's delta.
The Map keyed by timestamp followed by the sort is modelled as a
sorted duplicate-free list of timestamps built by ordered insertion,
with the per-timestamp `starts` / `ends` counts recovered by counting
the slots that contributed them. -/

/-- An output interval of the density response. -/
structure BookingDensityInterval where
  startTime : Int
  endTime : Int
  bookedCount : Int
deriving DecidableEq, Repr

/-- Ordered duplicate-free insertion of a change-point timestamp (a
`changePoints` Map update, with the final key sort folded in). -/
def insertTime (t : Int) : List Int → List Int
  | [] => [t]
  | x :: xs =>
    if t < x then t :: x :: xs
    else if t = x then x :: xs
    else x :: insertTime t xs

/-- One iteration of the `slots.forEach` loop: record the booking start
when `start < s.start ≤ end` and the booking end when
`s.end < end ∧ s.end ≥ start`. -/
def addSlotTimes (ws we : Int) (acc : List Int) (s : Range) : List Int :=
  let acc1 := if ws < s.lo ∧ s.lo ≤ we then insertTime s.lo acc else acc
  if s.hi < we ∧ ws ≤ s.hi then insertTime s.hi acc1 else acc1

/-- The change-point timestamps collected by the `slots.forEach` loop. -/
def changeTimes (slots : List Range) (ws we : Int) : List Int :=
  slots.foldl (addSlotTimes ws we) []

/-- The `starts` count the Map accumulates at timestamp `t`. -/
def startsAt (slots : List Range) (ws we t : Int) : Int :=
  (slots.countP fun s => decide (ws < s.lo ∧ s.lo ≤ we ∧ s.lo = t) : Nat)

/-- The `ends` count the Map accumulates at timestamp `t`. -/
def endsAt (slots : List Range) (ws we t : Int) : Int :=
  (slots.countP fun s => decide (s.hi < we ∧ ws ≤ s.hi ∧ s.hi = t) : Nat)

/-- The emission loop (`for i in 0..changes.length`): one interval per
consecutive pair of change points, with the leading interval from the
window start and the trailing interval to the window end, each
carrying the running count before applying that timestamp's delta. -/
def sweep (we : Int) (starts ends : Int → Int) :
    Int → Int → List Int → List BookingDensityInterval
  | cur, count, [] => [⟨cur, we, count⟩]
  | cur, count, t :: ts =>
    ⟨cur, t, count⟩ :: sweep we starts ends t (count + starts t - ends t) ts

/-- `AvailabilityManager.getBookingDensity` (the unit lookup throws
when the unit is missing or inactive, modelled by `none`). -/
def getBookingDensity (st : DBState) (unitId ws we : Int) :
    Option (List BookingDensityInterval × Int) :=
  match st.units.find? fun u => u.unitId == unitId && u.active with
  | none => none
  | some u =>
    let slots := (st.bookings.filter fun b =>
      b.unitId == unitId && b.status == .confirmed &&
        rangesOverlap b.slot ⟨ws, we⟩).map fun b => b.slot
    let numBookingsAtStart : Int :=
      ((slots.filter fun s => decide (s.lo ≤ ws)).length : Nat)
    some (sweep we (startsAt slots ws we) (endsAt slots ws we)
      ws numBookingsAtStart (changeTimes slots ws we), u.capacity)

/-- The number of confirmed bookings of the unit whose slot contains
the instant `t`. -/
def countBookingsAt (st : DBState) (unitId t : Int) : Int :=
  ((st.bookings.filter fun b =>
    b.unitId == unitId && b.status == .confirmed &&
      decide (b.slot.lo ≤ t ∧ t < b.slot.hi)).length : Nat)

/-- The number of slots containing the instant `t`. -/
def countAt (slots : List Range) (t : Int) : Nat :=
  slots.countP fun s => decide (s.lo ≤ t ∧ t < s.hi)

lemma mem_insertTime (a t : Int) (l : List Int) :
    a ∈ insertTime t l ↔ a = t ∨ a ∈ l := by
  induction l with
  | nil => simp [insertTime]
  | cons x xs ih =>
    unfold insertTime
    by_cases h1 : t < x
    · rw [if_pos h1]
      simp [List.mem_cons]
    · rw [if_neg h1]
      by_cases h2 : t = x
      · subst h2
        rw [if_pos rfl]
        simp only [List.mem_cons]
        tauto
      · rw [if_neg h2]
        simp only [List.mem_cons, ih]
        tauto

lemma insertTime_sorted (t : Int) (l : List Int)
    (h : l.Pairwise (· < ·)) : (insertTime t l).Pairwise (· < ·) := by
  induction l with
  | nil => simp [insertTime]
  | cons x xs ih =>
    rw [List.pairwise_cons] at h
    unfold insertTime
    by_cases h1 : t < x
    · rw [if_pos h1, List.pairwise_cons]
      refine ⟨?_, List.pairwise_cons.mpr h⟩
      intro b hb
      rcases List.mem_cons.mp hb with rfl | hb2
      · exact h1
      · exact h1.trans (h.1 b hb2)
    · rw [if_neg h1]
      by_cases h2 : t = x
      · rw [if_pos h2, List.pairwise_cons]
        exact h
      · rw [if_neg h2, List.pairwise_cons]
        refine ⟨?_, ih h.2⟩
        intro b hb
        rcases (mem_insertTime b t xs).mp hb with rfl | hb2
        · omega
        · exact h.1 b hb2

lemma mem_addSlotTimes (ws we : Int) (acc : List Int) (s : Range) (a : Int) :
    a ∈ addSlotTimes ws we acc s ↔
      a ∈ acc ∨ (ws < s.lo ∧ s.lo ≤ we ∧ a = s.lo) ∨
        (s.hi < we ∧ ws ≤ s.hi ∧ a = s.hi) := by
  unfold addSlotTimes
  dsimp only
  by_cases hA : ws < s.lo ∧ s.lo ≤ we
  · by_cases hB : s.hi < we ∧ ws ≤ s.hi
    · rw [if_pos hA, if_pos hB]
      simp only [mem_insertTime]
      tauto
    · rw [if_pos hA, if_neg hB]
      simp only [mem_insertTime]
      tauto
  · by_cases hB : s.hi < we ∧ ws ≤ s.hi
    · rw [if_neg hA, if_pos hB]
      simp only [mem_insertTime]
      tauto
    · rw [if_neg hA, if_neg hB]
      tauto

lemma addSlotTimes_sorted (ws we : Int) (acc : List Int) (s : Range)
    (h : acc.Pairwise (· < ·)) : (addSlotTimes ws we acc s).Pairwise (· < ·) := by
  unfold addSlotTimes
  dsimp only
  by_cases hA : ws < s.lo ∧ s.lo ≤ we
  · by_cases hB : s.hi < we ∧ ws ≤ s.hi
    · rw [if_pos hA, if_pos hB]
      exact insertTime_sorted _ _ (insertTime_sorted _ _ h)
    · rw [if_pos hA, if_neg hB]
      exact insertTime_sorted _ _ h
  · by_cases hB : s.hi < we ∧ ws ≤ s.hi
    · rw [if_neg hA, if_pos hB]
      exact insertTime_sorted _ _ h
    · rw [if_neg hA, if_neg hB]
      exact h

lemma changeTimes_aux_mem (slots : List Range) (ws we : Int) (acc : List Int) (a : Int) :
    a ∈ slots.foldl (addSlotTimes ws we) acc ↔
      a ∈ acc ∨ ∃ s ∈ slots,
        (ws < s.lo ∧ s.lo ≤ we ∧ a = s.lo) ∨ (s.hi < we ∧ ws ≤ s.hi ∧ a = s.hi) := by
  induction slots generalizing acc with
  | nil => simp
  | cons s ss ih =>
    rw [List.foldl_cons, ih, mem_addSlotTimes]
    simp only [List.mem_cons, List.exists_mem_cons_iff]
    aesop

lemma changeTimes_aux_sorted (slots : List Range) (ws we : Int) (acc : List Int)
    (h : acc.Pairwise (· < ·)) :
    (slots.foldl (addSlotTimes ws we) acc).Pairwise (· < ·) := by
  induction slots generalizing acc with
  | nil => exact h
  | cons s ss ih =>
    rw [List.foldl_cons]
    exact ih _ (addSlotTimes_sorted ws we acc s h)

lemma mem_changeTimes (slots : List Range) (ws we : Int) (a : Int) :
    a ∈ changeTimes slots ws we ↔
      ∃ s ∈ slots,
        (ws < s.lo ∧ s.lo ≤ we ∧ a = s.lo) ∨ (s.hi < we ∧ ws ≤ s.hi ∧ a = s.hi) := by
  unfold changeTimes
  rw [changeTimes_aux_mem]
  simp

lemma changeTimes_sorted (slots : List Range) (ws we : Int) :
    (changeTimes slots ws we).Pairwise (· < ·) :=
  changeTimes_aux_sorted slots ws we [] (List.Pairwise.nil)

lemma countP_split {α : Type} (l : List α) (p q : α → Bool) :
    l.countP p = l.countP (fun a => p a && q a) + l.countP (fun a => p a && !q a) := by
  induction l with
  | nil => rfl
  | cons x xs ih =>
    cases hpx : p x <;> cases hqx : q x <;>
      simp [List.countP_cons, hpx, hqx, ih] <;> omega

lemma countP_congr_mem {α : Type} (l : List α) (p q : α → Bool)
    (h : ∀ a ∈ l, p a = q a) : l.countP p = l.countP q := by
  induction l with
  | nil => rfl
  | cons x xs ih =>
    simp [List.countP_cons, h x (List.mem_cons_self x xs),
      ih fun a ha => h a (List.mem_cons_of_mem x ha)]

lemma sweep_head (we : Int) (starts ends : Int → Int) (cur count : Int)
    (ts : List Int) :
    (sweep we starts ends cur count ts).head?.map (·.startTime) = some cur := by
  cases ts <;> rfl

lemma sweep_last (we : Int) (starts ends : Int → Int) (cur count : Int)
    (ts : List Int) :
    (sweep we starts ends cur count ts).getLast?.map (·.endTime) = some we := by
  induction ts generalizing cur count with
  | nil => rfl
  | cons t rest ih =>
    show (List.getLast? (⟨cur, t, count⟩ ::
      sweep we starts ends t (count + starts t - ends t) rest)).map (·.endTime) = some we
    cases hrest : rest with
    | nil =>
      rw [show sweep we starts ends t (count + starts t - ends t) [] =
        [⟨t, we, count + starts t - ends t⟩] from rfl]
      rfl
    | cons t2 rest2 =>
      rw [show sweep we starts ends t (count + starts t - ends t) (t2 :: rest2) =
        ⟨t, t2, count + starts t - ends t⟩ ::
          sweep we starts ends t2
            ((count + starts t - ends t) + starts t2 - ends t2) rest2 from rfl]
      rw [List.getLast?_cons_cons]
      have := ih t (count + starts t - ends t)
      rw [hrest] at this
      rw [show sweep we starts ends t (count + starts t - ends t) (t2 :: rest2) =
        ⟨t, t2, count + starts t - ends t⟩ ::
          sweep we starts ends t2
            ((count + starts t - ends t) + starts t2 - ends t2) rest2 from rfl] at this
      exact this

lemma sweep_chain (we : Int) (starts ends : Int → Int) (cur count : Int)
    (ts : List Int) :
    (sweep we starts ends cur count ts).Chain' (fun a b => a.endTime = b.startTime) := by
  induction ts generalizing cur count with
  | nil => exact List.chain'_singleton _
  | cons t rest ih =>
    rw [show sweep we starts ends cur count (t :: rest) =
      ⟨cur, t, count⟩ :: sweep we starts ends t (count + starts t - ends t) rest from rfl]
    rw [List.chain'_cons']
    refine ⟨?_, ih t (count + starts t - ends t)⟩
    intro b hb
    have hh := sweep_head we starts ends t (count + starts t - ends t) rest
    rw [hb] at hh
    simp at hh
    exact hh.symm

/-- Between two consecutive change points the containment count is
constant: if no change point lies in `(cur, t]` then the count at `t`
equals the count at `cur`. -/
lemma countAt_congr (slots : List Range) (ws we : Int) (ts : List Int) (cur t : Int)
    (hwf : ∀ s ∈ slots, s.lo < s.hi ∧ s.lo < we ∧ ws < s.hi)
    (hstarts : ∀ s ∈ slots, cur < s.lo → s.lo ∈ ts)
    (hends : ∀ s ∈ slots, cur < s.hi → s.hi < we → s.hi ∈ ts)
    (hts : ∀ x ∈ ts, t < x)
    (hcur_t : cur ≤ t) (ht_we : t < we) :
    countAt slots t = countAt slots cur := by
  apply countP_congr_mem
  intro s hs
  obtain ⟨hw1, hw2, hw3⟩ := hwf s hs
  have hA : ¬ (cur < s.lo ∧ s.lo ≤ t) := by
    rintro ⟨h1, h2⟩
    exact absurd h2 (not_le.mpr (hts _ (hstarts s hs h1)))
  have hB : ¬ (cur < s.hi ∧ s.hi ≤ t) := by
    rintro ⟨h1, h2⟩
    exact absurd h2 (not_le.mpr (hts _ (hends s hs h1 (by omega))))
  apply decide_eq_decide.mpr
  constructor
  · rintro ⟨h1, h2⟩
    have hlo : s.lo ≤ cur := by
      by_contra hc
      exact hA ⟨by omega, h1⟩
    exact ⟨hlo, by omega⟩
  · rintro ⟨h1, h2⟩
    refine ⟨by omega, ?_⟩
    by_contra hc
    exact hB ⟨h2, by omega⟩

/-- Per-slot accounting when crossing the change point `t0`. -/
lemma density_count_cell (s : Range) (ws we cur t0 : Int)
    (hwf : s.lo < s.hi ∧ s.lo < we ∧ ws < s.hi)
    (hP1 : s.lo ≤ cur ∨ s.lo = t0 ∨ t0 < s.lo)
    (hP2 : s.hi ≤ cur ∨ s.hi = t0 ∨ t0 < s.hi)
    (hcur : cur < t0) (hws : ws ≤ cur) (ht0we : t0 < we) :
    ((if decide (s.lo ≤ t0 ∧ t0 < s.hi) = true then 1 else 0) : Nat) +
      (if decide (s.hi < we ∧ ws ≤ s.hi ∧ s.hi = t0) = true then 1 else 0) =
    (if decide (s.lo ≤ cur ∧ cur < s.hi) = true then 1 else 0) +
      (if decide (ws < s.lo ∧ s.lo ≤ we ∧ s.lo = t0) = true then 1 else 0) := by
  obtain ⟨h1, h2, h3⟩ := hwf
  simp only [decide_eq_true_eq]
  rcases hP1 with p1 | p1 | p1 <;> rcases hP2 with p2 | p2 | p2 <;>
    split_ifs <;> omega

/-- Crossing one change point adjusts the count by exactly the
`starts` / `ends` deltas recorded at that timestamp (`Nat` version). -/
lemma countAt_step_nat (slots : List Range) (ws we cur t0 : Int)
    (hcur : cur < t0) (hws : ws ≤ cur) (ht0we : t0 < we)
    (hyp : ∀ s ∈ slots, (s.lo < s.hi ∧ s.lo < we ∧ ws < s.hi) ∧
      (s.lo ≤ cur ∨ s.lo = t0 ∨ t0 < s.lo) ∧
      (s.hi ≤ cur ∨ s.hi = t0 ∨ t0 < s.hi)) :
    countAt slots t0 +
        slots.countP (fun s => decide (s.hi < we ∧ ws ≤ s.hi ∧ s.hi = t0)) =
      countAt slots cur +
        slots.countP (fun s => decide (ws < s.lo ∧ s.lo ≤ we ∧ s.lo = t0)) := by
  induction slots with
  | nil => rfl
  | cons s ss ih =>
    have hs := hyp s (List.mem_cons_self s ss)
    have hss := ih fun x hx => hyp x (List.mem_cons_of_mem s hx)
    have hcell := density_count_cell s ws we cur t0 hs.1 hs.2.1 hs.2.2 hcur hws ht0we
    unfold countAt at hss ⊢
    simp only [List.countP_cons]
    omega

/-- Crossing one change point, `Int` version in terms of the running
count update of the sweep loop. -/
lemma countAt_step (slots : List Range) (ws we : Int) (ts : List Int) (cur t0 : Int)
    (hwf : ∀ s ∈ slots, s.lo < s.hi ∧ s.lo < we ∧ ws < s.hi)
    (hstarts : ∀ s ∈ slots, cur < s.lo → s.lo ∈ t0 :: ts)
    (hends : ∀ s ∈ slots, cur < s.hi → s.hi < we → s.hi ∈ t0 :: ts)
    (hrest : ∀ x ∈ ts, t0 < x)
    (hcur : cur < t0) (hws : ws ≤ cur) (ht0we : t0 < we) :
    (countAt slots t0 : Int) =
      (countAt slots cur : Int) + startsAt slots ws we t0 - endsAt slots ws we t0 := by
  have hnat := countAt_step_nat slots ws we cur t0 hcur hws ht0we ?_
  · unfold startsAt endsAt
    omega
  · intro s hs
    refine ⟨hwf s hs, ?_, ?_⟩
    · by_cases hq : s.lo ≤ cur
      · exact Or.inl hq
      · rcases List.mem_cons.mp (hstarts s hs (by omega)) with heq | hmem
        · exact Or.inr (Or.inl heq)
        · exact Or.inr (Or.inr (hrest _ hmem))
    · by_cases hq : s.hi ≤ cur
      · exact Or.inl hq
      · by_cases hw : s.hi < we
        · rcases List.mem_cons.mp (hends s hs (by omega) hw) with heq | hmem
          · exact Or.inr (Or.inl heq)
          · exact Or.inr (Or.inr (hrest _ hmem))
        · exact Or.inr (Or.inr (by omega))

/-- Correctness of the sweep loop: under the loop invariants, every
emitted interval is non-degenerate, and the interval covering any
instant `t ∈ [cur, we)` carries exactly the number of slots containing
`t`. -/
lemma sweep_spec (slots : List Range) (ws we : Int) :
    ∀ (ts : List Int) (cur cnt : Int),
    ts.Pairwise (· < ·) →
    (∀ t ∈ ts, cur < t) →
    (∀ t ∈ ts, t < we) →
    cur < we →
    ws ≤ cur →
    (∀ s ∈ slots, s.lo < s.hi ∧ s.lo < we ∧ ws < s.hi) →
    (∀ s ∈ slots, cur < s.lo → s.lo ∈ ts) →
    (∀ s ∈ slots, cur < s.hi → s.hi < we → s.hi ∈ ts) →
    cnt = (countAt slots cur : Int) →
    (∀ iv ∈ sweep we (startsAt slots ws we) (endsAt slots ws we) cur cnt ts,
        iv.startTime < iv.endTime) ∧
    (∀ t : Int, cur ≤ t → t < we →
      ∃ iv ∈ sweep we (startsAt slots ws we) (endsAt slots ws we) cur cnt ts,
        iv.startTime ≤ t ∧ t < iv.endTime ∧ iv.bookedCount = (countAt slots t : Int))
  | [], cur, cnt, hsorted, hcur, hwe, hcurwe, hws, hwf, hstarts, hends, hcnt => by
    constructor
    · intro iv hiv
      rw [show sweep we (startsAt slots ws we) (endsAt slots ws we) cur cnt [] =
        [⟨cur, we, cnt⟩] from rfl, List.mem_singleton] at hiv
      subst hiv
      exact hcurwe
    · intro t hct htw
      refine ⟨⟨cur, we, cnt⟩, List.mem_singleton.mpr rfl, hct, htw, ?_⟩
      rw [hcnt]
      exact congrArg Nat.cast (countAt_congr slots ws we [] cur t hwf hstarts hends
        (fun x hx => absurd hx (List.not_mem_nil x)) hct htw).symm
  | t0 :: ts, cur, cnt, hsorted, hcur, hwe, hcurwe, hws, hwf, hstarts, hends, hcnt => by
    rw [List.pairwise_cons] at hsorted
    have ht0 : cur < t0 := hcur t0 (List.mem_cons_self t0 ts)
    have ht0we : t0 < we := hwe t0 (List.mem_cons_self t0 ts)
    have hstarts' : ∀ s ∈ slots, t0 < s.lo → s.lo ∈ ts := by
      intro s hs hlt
      rcases List.mem_cons.mp (hstarts s hs (by omega)) with heq | hmem
      · omega
      · exact hmem
    have hends' : ∀ s ∈ slots, t0 < s.hi → s.hi < we → s.hi ∈ ts := by
      intro s hs hlt hltwe
      rcases List.mem_cons.mp (hends s hs (by omega) hltwe) with heq | hmem
      · omega
      · exact hmem
    have hcnt' : cnt + startsAt slots ws we t0 - endsAt slots ws we t0
        = (countAt slots t0 : Int) := by
      rw [hcnt]
      rw [countAt_step slots ws we ts cur t0 hwf hstarts hends hsorted.1 ht0 hws ht0we]
    obtain ⟨ih1, ih2⟩ := sweep_spec slots ws we ts t0
      (cnt + startsAt slots ws we t0 - endsAt slots ws we t0)
      hsorted.2 hsorted.1 (fun t ht => hwe t (List.mem_cons_of_mem t0 ht))
      ht0we (by omega) hwf hstarts' hends' hcnt'
    rw [show sweep we (startsAt slots ws we) (endsAt slots ws we) cur cnt (t0 :: ts) =
      ⟨cur, t0, cnt⟩ :: sweep we (startsAt slots ws we) (endsAt slots ws we) t0
        (cnt + startsAt slots ws we t0 - endsAt slots ws we t0) ts from rfl]
    constructor
    · intro iv hiv
      rcases List.mem_cons.mp hiv with rfl | hmem
      · exact ht0
      · exact ih1 iv hmem
    · intro t hct htw
      by_cases ht : t < t0
      · refine ⟨⟨cur, t0, cnt⟩, List.mem_cons_self _ _, hct, ht, ?_⟩
        rw [hcnt]
        refine congrArg Nat.cast (Eq.symm
          (countAt_congr slots ws we (t0 :: ts) cur t hwf hstarts hends ?_ hct htw))
        intro x hx
        rcases List.mem_cons.mp hx with rfl | hmem
        · exact ht
        · exact ht.trans (hsorted.1 x hmem)
      · obtain ⟨iv, hiv, hb1, hb2, hb3⟩ := ih2 t (by omega) htw
        exact ⟨iv, List.mem_cons_of_mem _ hiv, hb1, hb2, hb3⟩

/-- C6 (confirmed): for every unit and window `[start, end)` with
`start < end`, the density intervals tile the window contiguously in
ascending order — the first starts at `start`, consecutive intervals
share endpoints, the last ends at `end`, every interval is
non-degenerate — and for every instant `t` in the window the
`bookedCount` of the interval containing `t` equals the number of
confirmed bookings of the unit whose slot contains `t`; an instant
with zero overlapping bookings is covered by an interval with count 0
rather than being omitted. -/
theorem claim_C6 (st : DBState) (unitId ws we : Int) (h : ws < we)
    (ivs : List BookingDensityInterval) (cap : Int)
    (hd : getBookingDensity st unitId ws we = some (ivs, cap)) :
    ivs.Chain' (fun a b => a.endTime = b.startTime) ∧
    (∀ iv ∈ ivs, iv.startTime < iv.endTime) ∧
    ivs.head?.map (·.startTime) = some ws ∧
    ivs.getLast?.map (·.endTime) = some we ∧
    ∀ t : Int, ws ≤ t → t < we →
      ∃ iv ∈ ivs, iv.startTime ≤ t ∧ t < iv.endTime ∧
        iv.bookedCount = countBookingsAt st unitId t := by
  unfold getBookingDensity at hd
  split at hd
  · exact absurd hd (by simp)
  · next u hu =>
    dsimp only at hd
    rw [Option.some.injEq, Prod.mk.injEq] at hd
    obtain ⟨hivs, hcap⟩ := hd
    subst hivs
    set slots := (st.bookings.filter fun b =>
      b.unitId == unitId && b.status == .confirmed &&
        rangesOverlap b.slot ⟨ws, we⟩).map (fun b => b.slot) with hslots
    have hwf : ∀ s ∈ slots, s.lo < s.hi ∧ s.lo < we ∧ ws < s.hi := by
      intro s hs
      rw [hslots, List.mem_map] at hs
      obtain ⟨b, hb, rfl⟩ := hs
      have hov := (List.mem_filter.mp hb).2
      simp only [Bool.and_eq_true] at hov
      have := hov.2
      unfold rangesOverlap at this
      simp only [decide_eq_true_eq] at this
      omega
    have hbound : ∀ x ∈ changeTimes slots ws we, ws < x ∧ x < we := by
      intro x hx
      obtain ⟨s, hs, hcase⟩ := (mem_changeTimes slots ws we x).mp hx
      obtain ⟨w1, w2, w3⟩ := hwf s hs
      rcases hcase with ⟨a1, a2, rfl⟩ | ⟨a1, a2, rfl⟩
      · exact ⟨a1, w2⟩
      · exact ⟨w3, a1⟩
    have hstarts0 : ∀ s ∈ slots, ws < s.lo → s.lo ∈ changeTimes slots ws we := by
      intro s hs hlt
      exact (mem_changeTimes slots ws we s.lo).mpr
        ⟨s, hs, Or.inl ⟨hlt, le_of_lt (hwf s hs).2.1, rfl⟩⟩
    have hends0 : ∀ s ∈ slots, ws < s.hi → s.hi < we → s.hi ∈ changeTimes slots ws we := by
      intro s hs hlt hltwe
      exact (mem_changeTimes slots ws we s.hi).mpr
        ⟨s, hs, Or.inr ⟨hltwe, le_of_lt hlt, rfl⟩⟩
    have hcnt0 : ((slots.filter fun s => decide (s.lo ≤ ws)).length : Int)
        = (countAt slots ws : Int) := by
      congr 1
      rw [← List.countP_eq_length_filter]
      apply countP_congr_mem
      intro s hs
      apply decide_eq_decide.mpr
      have := (hwf s hs).2.2
      constructor
      · intro hh
        exact ⟨hh, this⟩
      · intro hh
        exact hh.1
    obtain ⟨sp1, sp2⟩ := sweep_spec slots ws we (changeTimes slots ws we) ws
      ((slots.filter fun s => decide (s.lo ≤ ws)).length : Int)
      (changeTimes_sorted slots ws we)
      (fun t ht => (hbound t ht).1)
      (fun t ht => (hbound t ht).2)
      h le_rfl hwf hstarts0 hends0 hcnt0
    have hconv : ∀ t : Int, ws ≤ t → t < we →
        (countAt slots t : Int) = countBookingsAt st unitId t := by
      intro t h1 h2
      unfold countAt countBookingsAt
      rw [hslots, List.countP_map]
      congr 1
      rw [← List.countP_eq_length_filter]
      rw [List.countP_filter]
      apply countP_congr_mem
      intro b hb
      by_cases hin : b.slot.lo ≤ t ∧ t < b.slot.hi
      · have hov : rangesOverlap b.slot ⟨ws, we⟩ = true := by
          unfold rangesOverlap
          simp only [decide_eq_true_eq]
          omega
        simp [Function.comp, hin, hov]
      · simp [Function.comp, hin]
    refine ⟨sweep_chain _ _ _ _ _ _, sp1, sweep_head _ _ _ _ _ _,
      sweep_last _ _ _ _ _ _, ?_⟩
    intro t h1 h2
    obtain ⟨iv, hiv, hb1, hb2, hb3⟩ := sp2 t h1 h2
    exact ⟨iv, hiv, hb1, hb2, by rw [hb3, hconv t h1 h2]⟩

/-- Witness for C6 at a concrete input: the empty-booking density of
`oneUnitState` over `[0, 3600000)` is one interval `[0, 3600000)` with
count 0, covering the instant 42 with count 0. -/
theorem claim_C6_witness :
    (∃ iv ∈ ([⟨0, 3600000, 0⟩] : List BookingDensityInterval),
      iv.startTime ≤ 42 ∧ (42:Int) < iv.endTime ∧
        iv.bookedCount = countBookingsAt oneUnitState 1 42) ∧
    ([⟨0, 3600000, 0⟩] : List BookingDensityInterval).head?.map (·.startTime)
      = some 0 := by
  have h := claim_C6 oneUnitState 1 0 3600000 (by norm_num) [⟨0, 3600000, 0⟩] 1 rfl
  exact ⟨h.2.2.2.2 42 (by norm_num) (by norm_num), h.2.2.1⟩

end Printshop
